import Mathlib

/-!
# CapacitiveSensorDue: a shallow embedding

The embedding follows `CapacitiveSensorDue.cpp` / `CapacitiveSensorDue.h`.

* `long` and `unsigned long` are 32 bits wide on the Arduino Due.  A `long` is kept
  as its two's-complement bit pattern (a natural number below `2 ^ 32`), which is what
  the usual arithmetic conversions compare against `unsigned long` operands;
  `toLong` gives the signed reading of a pattern.  Values of `uint8_t` parameters
  (`samples`, pin numbers) range over `0 .. 255`.
* The hardware is explicit state (`Hw`): the content of the output registers by
  address, the interrupt flag, the list of hardware interactions performed so far,
  and the values that successive reads of the receive input register deliver.
* The static `_timeout` is an argument `T` of the methods that read it; `setTimeout`
  returns its new value.  `TIMEOUT_FORMULA` is evaluated in IEEE 754 binary32
  (`F32`), as the source does with `float`.
* The two wait loops are one recursive function with an explicit bound on the number
  of evaluations of the loop condition; `waitLoop_spec` and `waitLoopAux_fuel` show
  that the bound passed by `waitLoop` is never reached when `T` is an
  `unsigned long`.
* Properties of the order of hardware interactions are stated on `Hw.trace`, with
  the interrupt flag replayed along it (`irqReplay`); properties of register contents
  are stated bit by bit (`ChangesOnlyMaskBits`).
-/

namespace CapacitiveSensorDue

/-! ## Machine integers -/

/-- The value of `ULONG_MAX` for a 32-bit `unsigned long`. -/
def ULONG_MAX : Nat := 2 ^ 32 - 1

/-- The value of `LONG_MAX` for a 32-bit `long`. -/
def LONG_MAX : Nat := 2 ^ 31 - 1

/-- Reduction of a natural number to a 32-bit pattern. -/
def wrap32 (n : Nat) : Nat := n % 2 ^ 32

/-- Signed (two's-complement) reading of a 32-bit pattern, i.e. the conversion
`unsigned long -> long`. -/
def toLong (w : Nat) : Int := if w < 2 ^ 31 then (w : Int) else (w : Int) - 2 ^ 32

/-! ## Hardware state -/

/-- The two pin modes passed to `pinMode`. -/
inductive PinMode where
  | INPUT
  | OUTPUT
  deriving DecidableEq, Repr

/-- One interaction with the hardware abstraction layer. -/
inductive Event where
  | noInterrupts
  | interrupts
  | pinMode (pin : Nat) (mode : PinMode)
  | regRead (addr : Nat)
  | regWrite (addr : Nat) (value : Nat)
  deriving DecidableEq, Repr

/-- Hardware state.  `odsr a` is the content of the output register at address `a`;
`irq` tells whether interrupts are enabled; `pdsr k` is the value delivered by the
`k`-th read of a pin input register and `reads` counts the reads done so far;
`trace` lists every interaction, oldest first. -/
structure Hw where
  odsr : Nat → Nat
  irq : Bool
  pdsr : Nat → Nat
  reads : Nat
  trace : List Event

/-- Model of `noInterrupts()`. -/
def noInterrupts (hw : Hw) : Hw :=
  { hw with irq := false, trace := hw.trace ++ [Event.noInterrupts] }

/-- Model of `interrupts()`. -/
def interrupts (hw : Hw) : Hw :=
  { hw with irq := true, trace := hw.trace ++ [Event.interrupts] }

/-- Model of `pinMode(pin, mode)`; the call is recorded. -/
def pinMode (hw : Hw) (pin : Nat) (mode : PinMode) : Hw :=
  { hw with trace := hw.trace ++ [Event.pinMode pin mode] }

/-- Model of `*reg &= ~mask` on a 32-bit output register, `mask` being a `uint8_t`:
`~mask` is computed on the promoted `int`, so all bits from 8 up are set. -/
def regClear (hw : Hw) (reg mask : Nat) : Hw :=
  let v := hw.odsr reg &&& (2 ^ 32 - 1 - mask)
  { hw with odsr := Function.update hw.odsr reg v,
            trace := hw.trace ++ [Event.regRead reg, Event.regWrite reg v] }

/-- Model of `*reg |= mask` on a 32-bit output register. -/
def regSet (hw : Hw) (reg mask : Nat) : Hw :=
  let v := hw.odsr reg ||| mask
  { hw with odsr := Function.update hw.odsr reg v,
            trace := hw.trace ++ [Event.regRead reg, Event.regWrite reg v] }

/-- Model of one volatile read `*reg` of a pin input register. -/
def regIn (hw : Hw) (reg : Nat) : Nat × Hw :=
  (hw.pdsr hw.reads,
   { hw with reads := hw.reads + 1, trace := hw.trace ++ [Event.regRead reg] })

/-! ## The sensor object -/

/-- The pin-mapping functions of the Arduino core, which the library calls but does
not define. -/
structure HAL where
  digitalPinToBitMask : Nat → Nat
  digitalPinToPort : Nat → Nat
  portOutputRegister : Nat → Nat
  portInputRegister : Nat → Nat

/-- The instance fields of `class CapacitiveSensorDue`; registers are addresses. -/
structure Sensor where
  _sendPin : Nat
  _receivePin : Nat
  _sendBitmask : Nat
  _sendOutRegister : Nat
  _receiveBitmask : Nat
  _receiveInRegister : Nat
  _receiveOutRegister : Nat
  _leastCheckedTime : Nat

/-- The constructor `CapacitiveSensorDue(sendPin, receivePin)`.  The bitmask fields
are `uint8_t`, so the mask resolved by the HAL is reduced modulo `2 ^ 8`. -/
def construct (hal : HAL) (sendPin receivePin : Nat) (hw : Hw) : Sensor × Hw :=
  let s : Sensor :=
    { _sendPin := sendPin
      _receivePin := receivePin
      _leastCheckedTime := ULONG_MAX
      _sendBitmask := hal.digitalPinToBitMask sendPin % 2 ^ 8
      _sendOutRegister := hal.portOutputRegister (hal.digitalPinToPort sendPin)
      _receiveBitmask := hal.digitalPinToBitMask receivePin % 2 ^ 8
      _receiveInRegister := hal.portInputRegister (hal.digitalPinToPort receivePin)
      _receiveOutRegister := hal.portOutputRegister (hal.digitalPinToPort receivePin) }
  (s, interrupts (pinMode (noInterrupts hw) sendPin PinMode.OUTPUT))

/-! ## The measurement -/

/-- The wait loops of `senseSample`.  With `level = false` this is
`while (!(*in & mask) && (*total < _timeout)) (*total)++;` and with `level = true`
it is `while ((*in & mask) && (*total < _timeout)) (*total)++;`.
Every evaluation of the loop condition reads the input register once.
The first argument bounds the number of evaluations; `waitLoop` below passes a
bound that is never reached. -/
def waitLoopAux (s : Sensor) (T : Nat) (level : Bool) : Nat → Hw → Nat → Hw × Nat
  | 0, hw, total => (hw, total)
  | fuel + 1, hw, total =>
    let r := regIn hw s._receiveInRegister
    if (decide (r.1 &&& s._receiveBitmask ≠ 0) == level) && decide (total < T) then
      waitLoopAux s T level fuel r.2 (wrap32 (total + 1))
    else
      (r.2, total)

/-- A wait loop of `senseSample`, see `waitLoopAux`.  The loop condition is evaluated
at most `T - total + 1` times, because every iteration but the last increments
`total` below `T`. -/
def waitLoop (s : Sensor) (T : Nat) (level : Bool) (hw : Hw) (total : Nat) : Hw × Nat :=
  waitLoopAux s T level (T - total + 1) hw total

/-- The first block of `senseSample` that runs with interrupts disabled: send pin
LOW, receive pin LOW through output mode and back to input, send pin HIGH. -/
def chargeSetup (s : Sensor) (hw : Hw) : Hw :=
  let hw := noInterrupts hw
  let hw := regClear hw s._sendOutRegister s._sendBitmask
  let hw := pinMode hw s._receivePin PinMode.INPUT
  let hw := regClear hw s._receiveOutRegister s._receiveBitmask
  let hw := pinMode hw s._receivePin PinMode.OUTPUT
  let hw := pinMode hw s._receivePin PinMode.INPUT
  let hw := regSet hw s._sendOutRegister s._sendBitmask
  interrupts hw

/-- The second block of `senseSample` that runs with interrupts disabled: receive
pin HIGH through output mode and back to input, pull-up off, send pin LOW. -/
def dischargeSetup (s : Sensor) (hw : Hw) : Hw :=
  let hw := noInterrupts hw
  let hw := regSet hw s._receiveOutRegister s._receiveBitmask
  let hw := pinMode hw s._receivePin PinMode.OUTPUT
  let hw := pinMode hw s._receivePin PinMode.INPUT
  let hw := regClear hw s._receiveOutRegister s._receiveBitmask
  let hw := regClear hw s._sendOutRegister s._sendBitmask
  interrupts hw

/-- The method `senseSample(long *total)`: the result is the hardware state, the
value left in `*total` and the returned `int`.  `CHECK_TIMEOUT()` is
`if (*total >= _timeout) return -1;`. -/
def senseSample (s : Sensor) (T : Nat) (hw : Hw) (total : Nat) : Hw × Nat × Int :=
  let w := waitLoop s T false (chargeSetup s hw) total
  if T ≤ w.2 then (w.1, w.2, -1)
  else
    let w := waitLoop s T true (dischargeSetup s w.1) w.2
    if T ≤ w.2 then (w.1, w.2, -1) else (w.1, w.2, 1)

/-- The `for` loop of `check`: `n` further calls of `senseSample` on the shared
accumulator; `none` stands for the early `return -1`. -/
def sampleLoop (s : Sensor) (T : Nat) : Nat → Hw → Nat → Hw × Option Nat
  | 0, hw, total => (hw, some total)
  | n + 1, hw, total =>
    let r := senseSample s T hw total
    if r.2.2 < 0 then (r.1, none) else sampleLoop s T n r.1 r.2.1

/-- The method `check(samples)`: the result is the sensor object, the hardware state
and the returned `long`.  `T` is the static `_timeout` in force.  The comparison
`total < _leastCheckedTime` and the subtraction are done in `unsigned long`; the
difference is converted back to `long` by `return`. -/
def check (s : Sensor) (T : Nat) (hw : Hw) (samples : Nat) : Sensor × Hw × Int :=
  if samples = 0 then (s, hw, 0)
  else
    match sampleLoop s T samples hw 0 with
    | (hw1, none) => (s, hw1, -1)
    | (hw1, some total) =>
      let s1 : Sensor :=
        if total < s._leastCheckedTime then { s with _leastCheckedTime := total } else s
      (s1, hw1, toLong (wrap32 (total + 2 ^ 32 - s1._leastCheckedTime)))

/-! ## The shared timeout -/

/-- The static constant `LOOP_TIMING_FACTOR`: the initialiser `310` stored in a
`uint8_t`. -/
def LOOP_TIMING_FACTOR : Nat := 310 % 2 ^ 8

/-- Rounding of the fraction `n / d` to the nearest integer, ties to even. -/
def roundHalfEven (n d : Nat) : Nat :=
  let q := n / d
  let r := n % d
  if 2 * r < d then q else if d < 2 * r then q + 1 else if q % 2 = 0 then q else q + 1

/-- A non-negative finite value of the C type `float` (IEEE 754 binary32), kept as the
fraction `num / den`. -/
structure F32 where
  num : Nat
  den : Nat
  deriving DecidableEq, Repr

/-- Floor of the binary logarithm, by halving; the first argument bounds the number
of halvings. -/
def log2Aux : Nat → Nat → Nat
  | 0, _ => 0
  | fuel + 1, n => if 2 ≤ n then log2Aux fuel (n / 2) + 1 else 0

/-- Floor of the binary logarithm of `n` (`0` for `n = 0`). -/
def log2 (n : Nat) : Nat := log2Aux n n

/-- Rounding of the fraction `n / d` to binary32: 24 significant bits, round to
nearest, ties to even (normal range). -/
def F32.round (n d : Nat) : F32 :=
  if n = 0 then ⟨0, 1⟩
  else
    let k : Int := (log2 n : Int) - (log2 d : Int)
    let geq : Bool := if 0 ≤ k then decide (d * 2 ^ k.toNat ≤ n) else decide (d ≤ n * 2 ^ (-k).toNat)
    let e : Int := (if geq then k else k - 1) - 23
    if 0 ≤ e then ⟨roundHalfEven n (d * 2 ^ e.toNat) * 2 ^ e.toNat, 1⟩
    else ⟨roundHalfEven (n * 2 ^ (-e).toNat) d, 2 ^ (-e).toNat⟩

/-- Conversion of an integer to `float`. -/
def F32.ofNat (n : Nat) : F32 := F32.round n 1

/-- Multiplication of two `float` values. -/
def F32.mul (a b : F32) : F32 := F32.round (a.num * b.num) (a.den * b.den)

/-- Division of two `float` values (nonzero divisor). -/
def F32.div (a b : F32) : F32 := F32.round (a.num * b.den) (a.den * b.num)

/-- Conversion `float -> unsigned long`: truncation; a value out of range gives
`ULONG_MAX`, as the ARM EABI conversion routine does. -/
def F32.toULong (a : F32) : Nat := min (a.num / a.den) ULONG_MAX

/-- The macro `TIMEOUT_FORMULA(TIMEOUT)`, i.e.
`(TIMEOUT * (float) LOOP_TIMING_FACTOR * (float) F_CPU) / 84000000`, evaluated in
`float`; `F_CPU` is the clock frequency macro of the build. -/
def TIMEOUT_FORMULA (F_CPU TIMEOUT : Nat) : F32 :=
  F32.div
    (F32.mul (F32.mul (F32.ofNat TIMEOUT) (F32.ofNat LOOP_TIMING_FACTOR)) (F32.ofNat F_CPU))
    (F32.ofNat 84000000)

/-- The initial value of the static `_timeout`: `TIMEOUT_FORMULA(2000)`. -/
def defaultTimeout (F_CPU : Nat) : Nat := F32.toULong (TIMEOUT_FORMULA F_CPU 2000)

/-- The static method `setTimeout(timeout)`: the result is the new value of the
static `_timeout`. -/
def setTimeout (F_CPU timeout : Nat) : Nat := F32.toULong (TIMEOUT_FORMULA F_CPU timeout)

/-! ## Pin behaviour -/

/-- The level of the receive pin as the wait loops see it at the `k`-th read of the
input register: `*in & mask` is nonzero. -/
def pinHigh (s : Sensor) (hw : Hw) (k : Nat) : Bool :=
  decide (hw.pdsr k &&& s._receiveBitmask ≠ 0)

/-- The hardware state after `k` further reads of the receive input register. -/
def advance (s : Sensor) (hw : Hw) (k : Nat) : Hw :=
  { hw with reads := hw.reads + k,
            trace := hw.trace ++ List.replicate k (Event.regRead s._receiveInRegister) }

/-- From the next read on, the receive pin reads LOW `c` times and then HIGH (the
charge loop iterates `c` times), after which it reads HIGH `d` times and then LOW
(the discharge loop iterates `d` times). -/
def Transitions (s : Sensor) (hw : Hw) (c d : Nat) : Prop :=
  (∀ i, i < c → pinHigh s hw (hw.reads + i) = false) ∧
  pinHigh s hw (hw.reads + c) = true ∧
  (∀ i, i < d → pinHigh s hw (hw.reads + c + 1 + i) = true) ∧
  pinHigh s hw (hw.reads + c + 1 + d) = false

/-- In a sample that starts in hardware state `hw` with the accumulator at `total`, the
receive pin fails to transition before the accumulator reaches `T`: either it reads
LOW throughout the charge loop, or it reads HIGH after `c` charge iterations with the
accumulator still below `T` and then reads HIGH throughout the discharge loop. -/
def FailsToTransition (s : Sensor) (T : Nat) (hw : Hw) (total : Nat) : Prop :=
  (∀ i, i < T - total → pinHigh s hw (hw.reads + i) = false) ∨
  (∃ c, (∀ i, i < c → pinHigh s hw (hw.reads + i) = false) ∧
    pinHigh s hw (hw.reads + c) = true ∧ total + c < T ∧
    (∀ i, i < T - (total + c) → pinHigh s hw (hw.reads + c + 1 + i) = true))

/-! ## Sequences of calls -/

/-- The circumstances of one call of `check`: the value of the static `_timeout` in
force, the hardware state in which the call is made, and the argument. -/
structure Call where
  T : Nat
  hw : Hw
  samples : Nat

/-- The raw accumulated total of a call: the value of `total` when the sample loop has
completed, `none` when a sample timed out.  It does not depend on the
`_leastCheckedTime` field of `s` (`sampleLoop_least`). -/
def rawTotal (s : Sensor) (c : Call) : Option Nat :=
  (sampleLoop s c.T c.samples c.hw 0).2

/-- Successive calls of `check` on one sensor object: the object after the last call
and the returned values in order. -/
def checks (s : Sensor) : List Call → Sensor × List Int
  | [] => (s, [])
  | c :: cs =>
    let r := check s c.T c.hw c.samples
    let rest := checks r.1 cs
    (rest.1, r.2.2 :: rest.2)

/-- The state of a program that owns one sensor object: the static `_timeout`, the
object and the hardware. -/
structure Sketch where
  _timeout : Nat
  sensor : Sensor
  hw : Hw

/-- The operations of the public interface on an existing object. -/
inductive Op where
  | check (samples : Nat)
  | setTimeout (timeout : Nat)

/-- The effect of one operation on the program state. -/
def Sketch.step (F_CPU : Nat) (p : Sketch) : Op → Sketch
  | Op.check samples =>
    let r := check p.sensor p._timeout p.hw samples
    { p with sensor := r.1, hw := r.2.1 }
  | Op.setTimeout timeout => { p with _timeout := setTimeout F_CPU timeout }

/-- Lines 92-96 of `check` applied to the raw totals of successive successful calls,
starting from the stored baseline `least`: the returned values in order. -/
def returnsFrom (least : Nat) : List Nat → List Int
  | [] => []
  | r :: rs =>
    let l := if r < least then r else least
    toLong (wrap32 (r + 2 ^ 32 - l)) :: returnsFrom l rs

/-- Lines 92-94 of `check` applied to the raw totals of successive successful calls:
the stored baseline after the last of them. -/
def baselineFrom (least : Nat) : List Nat → Nat
  | [] => least
  | r :: rs => baselineFrom (if r < least then r else least) rs

/-! ## Simulated hardware -/

/-- A simple pin mapping: pin `p` is bit `p % 32` of port `p / 32`, and port `k` has
its output register at address `64 * k` and its input register at `64 * k + 4`. -/
def simHAL : HAL :=
  { digitalPinToBitMask := fun p => 2 ^ (p % 32)
    digitalPinToPort := fun p => p / 32
    portOutputRegister := fun port => 64 * port
    portInputRegister := fun port => 64 * port + 4 }

/-- A simulated receive pin wired to the input bits `mask`: it reads LOW for the
first `c` reads, HIGH for the next `d + 1` reads and LOW from then on. -/
def simPin (mask c d : Nat) : Nat → Nat :=
  fun k => if k < c then 0 else if k ≤ c + d then mask else 0

/-- A hardware state with all output registers zero, interrupts enabled, no
interaction recorded yet, and `simPin mask c d` on the input register. -/
def simHw (mask c d : Nat) : Hw :=
  { odsr := fun _ => 0, irq := true, pdsr := simPin mask c d, reads := 0, trace := [] }

/-! ## Several samples -/

/-- The sum of the charge and discharge iteration counts of a list of samples. -/
def sumCounts (cds : List (Nat × Nat)) : Nat :=
  (cds.map (fun p => p.1 + p.2)).sum

/-- The behaviour of the receive pin over successive samples, from the next read on:
in the sample with counts `(c, d)` the charge loop iterates `c` times and the
discharge loop `d` times (`Transitions`); such a sample reads the input register
`c + d + 2` times, and the next sample continues from there. -/
def PinNeeds (s : Sensor) : Hw → List (Nat × Nat) → Prop
  | _, [] => True
  | hw, p :: rest =>
    Transitions s hw p.1 p.2 ∧ PinNeeds s { hw with reads := hw.reads + p.1 + p.2 + 2 } rest

/-- The value of the local variable `total` of `check` when the `for` loop is left,
be it by completion or by the early `return -1`. -/
def finalTotal (s : Sensor) (T : Nat) : Nat → Hw → Nat → Nat
  | 0, _, total => total
  | n + 1, hw, total =>
    let r := senseSample s T hw total
    if r.2.2 < 0 then r.2.1 else finalTotal s T n r.1 r.2.1

/-- Replay of the interrupt flag along a list of hardware interactions: every event
is paired with the state of the flag (`true` for enabled) at the moment it
happens, starting from `flag`. -/
def irqReplay : Bool → List Event → List (Event × Bool)
  | _, [] => []
  | flag, Event.noInterrupts :: es => (Event.noInterrupts, flag) :: irqReplay false es
  | flag, Event.interrupts :: es => (Event.interrupts, flag) :: irqReplay true es
  | flag, Event.pinMode pin mode :: es => (Event.pinMode pin mode, flag) :: irqReplay flag es
  | flag, Event.regRead a :: es => (Event.regRead a, flag) :: irqReplay flag es
  | flag, Event.regWrite a v :: es => (Event.regWrite a v, flag) :: irqReplay flag es

/-- A hardware state like `simHw` whose input register delivers, read after read, the
bits `mask` where `levels` says HIGH and `0` where it says LOW, and `0` once the list
is exhausted. -/
def simLevels (mask : Nat) (levels : List Bool) : Hw :=
  { odsr := fun _ => 0, irq := true,
    pdsr := fun k => if levels.getD k false then mask else 0, reads := 0, trace := [] }

/-- The state of the interrupt flag after a list of hardware interactions, starting
from `flag`. -/
def irqAfter : Bool → List Event → Bool
  | flag, [] => flag
  | _, Event.noInterrupts :: es => irqAfter false es
  | _, Event.interrupts :: es => irqAfter true es
  | flag, Event.pinMode _ _ :: es => irqAfter flag es
  | flag, Event.regRead _ :: es => irqAfter flag es
  | flag, Event.regWrite _ _ :: es => irqAfter flag es

/-- The interrupt discipline for one replayed event: `noInterrupts` is called while
interrupts are enabled, `interrupts` while they are disabled, and register writes and
pin-mode changes happen while they are disabled. -/
def irqOk : Event × Bool → Bool
  | (Event.noInterrupts, flag) => flag
  | (Event.interrupts, flag) => !flag
  | (Event.pinMode _ _, flag) => !flag
  | (Event.regWrite _ _, flag) => !flag
  | (Event.regRead _, _) => true

/-- From hardware state `hw` to `hw1` the output registers change only in the bits
selected by the send bitmask (in the send output register) and by the receive bitmask
(in the receive output register). -/
def ChangesOnlyMaskBits (s : Sensor) (hw hw1 : Hw) : Prop :=
  ∀ a i, (hw1.odsr a).testBit i ≠ (hw.odsr a).testBit i →
    (a = s._sendOutRegister ∧ s._sendBitmask.testBit i = true) ∨
      (a = s._receiveOutRegister ∧ s._receiveBitmask.testBit i = true)

/-! ## Lemmas on the wait loops and the sample loop -/

theorem wrap32_of_lt {n : Nat} (h : n < 2 ^ 32) : wrap32 n = n := Nat.mod_eq_of_lt h

theorem advance_zero (s : Sensor) (hw : Hw) : advance s hw 0 = hw := by
  simp [advance]

theorem advance_advance (s : Sensor) (hw : Hw) (j k : Nat) :
    advance s (advance s hw j) k = advance s hw (j + k) := by
  unfold advance
  simp only [List.append_assoc, List.replicate_add, Nat.add_assoc]

theorem waitLoopAux_succ (s : Sensor) (T : Nat) (level : Bool) (f : Nat) (hw : Hw)
    (total : Nat) :
    waitLoopAux s T level (f + 1) hw total =
      if (pinHigh s hw hw.reads == level) && decide (total < T) then
        waitLoopAux s T level f (advance s hw 1) (wrap32 (total + 1))
      else (advance s hw 1, total) := rfl

theorem waitLoopAux_exit (s : Sensor) (T : Nat) (level : Bool) (hT : T < 2 ^ 32) :
    ∀ (c fuel : Nat) (hw : Hw) (total : Nat),
      c < fuel →
      (∀ i, i < c → pinHigh s hw (hw.reads + i) = level ∧ total + i < T) →
      (pinHigh s hw (hw.reads + c) ≠ level ∨ T ≤ total + c) →
      waitLoopAux s T level fuel hw total = (advance s hw (c + 1), total + c) := by
  intro c
  induction c with
  | zero =>
    intro fuel hw total hf _ hexit
    obtain ⟨f, rfl⟩ : ∃ f, fuel = f + 1 := ⟨fuel - 1, by omega⟩
    have hcond : ((pinHigh s hw hw.reads == level) && decide (total < T)) = false := by
      rcases hexit with h | h
      · have : (pinHigh s hw hw.reads == level) = false := by
          rw [Nat.add_zero] at h
          exact beq_false_of_ne h
        rw [this]; rfl
      · have : decide (total < T) = false := decide_eq_false (by omega)
        rw [this, Bool.and_false]
    rw [waitLoopAux_succ, hcond]
    rfl
  | succ c ih =>
    intro fuel hw total hf hrun hexit
    obtain ⟨f, rfl⟩ : ∃ f, fuel = f + 1 := ⟨fuel - 1, by omega⟩
    have h0 := hrun 0 (by omega)
    have hcond : ((pinHigh s hw hw.reads == level) && decide (total < T)) = true := by
      have h1 : (pinHigh s hw hw.reads == level) = true := by
        rw [Nat.add_zero] at h0
        exact beq_iff_eq.mpr h0.1
      have h2 : decide (total < T) = true := decide_eq_true (by omega)
      rw [h1, h2]; rfl
    rw [waitLoopAux_succ, hcond, if_pos rfl]
    rw [wrap32_of_lt (by omega : total + 1 < 2 ^ 32)]
    rw [ih f (advance s hw 1) (total + 1) (by omega)]
    · rw [advance_advance]
      have e1 : 1 + (c + 1) = c + 1 + 1 := by omega
      have e2 : total + 1 + c = total + (c + 1) := by omega
      rw [e1, e2]
    · intro i hi
      have := hrun (i + 1) (by omega)
      refine ⟨?_, by omega⟩
      have e : (advance s hw 1).reads + i = hw.reads + (i + 1) := by
        show hw.reads + 1 + i = _
        omega
      rw [e]; exact this.1
    · have e : (advance s hw 1).reads + c = hw.reads + (c + 1) := by
        show hw.reads + 1 + c = _
        omega
      rcases hexit with h | h
      · left; rw [e]; exact h
      · right; omega

theorem waitLoop_exit (s : Sensor) (T : Nat) (level : Bool) (hT : T < 2 ^ 32)
    (c : Nat) (hw : Hw) (total : Nat)
    (hrun : ∀ i, i < c → pinHigh s hw (hw.reads + i) = level ∧ total + i < T)
    (hexit : pinHigh s hw (hw.reads + c) ≠ level ∨ T ≤ total + c) :
    waitLoop s T level hw total = (advance s hw (c + 1), total + c) := by
  unfold waitLoop
  apply waitLoopAux_exit s T level hT c _ hw total _ hrun hexit
  rcases Nat.eq_zero_or_pos c with h | h
  · omega
  · have := (hrun (c - 1) (by omega)).2
    omega

theorem senseSample_success (s : Sensor) (T : Nat) (hT : T < 2 ^ 32) (hw : Hw)
    (total c d : Nat) (h : Transitions s hw c d) (hlt : total + c + d < T) :
    senseSample s T hw total =
      (advance s (dischargeSetup s (advance s (chargeSetup s hw) (c + 1))) (d + 1),
        total + c + d, 1) := by
  obtain ⟨h1, h2, h3, h4⟩ := h
  have e1 : waitLoop s T false (chargeSetup s hw) total =
      (advance s (chargeSetup s hw) (c + 1), total + c) := by
    apply waitLoop_exit s T false hT c
    · intro i hi
      exact ⟨h1 i hi, by omega⟩
    · left
      show pinHigh s hw (hw.reads + c) ≠ false
      rw [h2]; decide
  have e2 : waitLoop s T true (dischargeSetup s (advance s (chargeSetup s hw) (c + 1)))
      (total + c) =
      (advance s (dischargeSetup s (advance s (chargeSetup s hw) (c + 1))) (d + 1),
        total + c + d) := by
    apply waitLoop_exit s T true hT d
    · intro i hi
      refine ⟨?_, by omega⟩
      show pinHigh s hw (hw.reads + (c + 1) + i) = true
      rw [← Nat.add_assoc]; exact h3 i hi
    · left
      show pinHigh s hw (hw.reads + (c + 1) + d) ≠ true
      rw [← Nat.add_assoc, h4]; decide
  unfold senseSample
  simp only [e1, e2]
  rw [if_neg (by omega), if_neg (by omega)]

theorem senseSample_charge_timeout (s : Sensor) (T : Nat) (hT : T < 2 ^ 32) (hw : Hw)
    (total : Nat) (h : ∀ i, i < T - total → pinHigh s hw (hw.reads + i) = false) :
    senseSample s T hw total =
      (advance s (chargeSetup s hw) (T - total + 1), total + (T - total), -1) := by
  have e1 : waitLoop s T false (chargeSetup s hw) total =
      (advance s (chargeSetup s hw) (T - total + 1), total + (T - total)) := by
    apply waitLoop_exit s T false hT (T - total)
    · intro i hi
      exact ⟨h i hi, by omega⟩
    · right; omega
  unfold senseSample
  simp only [e1]
  rw [if_pos (by omega)]

theorem senseSample_discharge_timeout (s : Sensor) (T : Nat) (hT : T < 2 ^ 32) (hw : Hw)
    (total c : Nat) (h1 : ∀ i, i < c → pinHigh s hw (hw.reads + i) = false)
    (h2 : pinHigh s hw (hw.reads + c) = true) (hlt : total + c < T)
    (h3 : ∀ i, i < T - (total + c) → pinHigh s hw (hw.reads + c + 1 + i) = true) :
    senseSample s T hw total =
      (advance s (dischargeSetup s (advance s (chargeSetup s hw) (c + 1)))
        (T - (total + c) + 1), T, -1) := by
  have e1 : waitLoop s T false (chargeSetup s hw) total =
      (advance s (chargeSetup s hw) (c + 1), total + c) := by
    apply waitLoop_exit s T false hT c
    · intro i hi
      exact ⟨h1 i hi, by omega⟩
    · left
      show pinHigh s hw (hw.reads + c) ≠ false
      rw [h2]; decide
  have e2 : waitLoop s T true (dischargeSetup s (advance s (chargeSetup s hw) (c + 1)))
      (total + c) =
      (advance s (dischargeSetup s (advance s (chargeSetup s hw) (c + 1)))
        (T - (total + c) + 1), total + c + (T - (total + c))) := by
    apply waitLoop_exit s T true hT (T - (total + c))
    · intro i hi
      refine ⟨?_, by omega⟩
      show pinHigh s hw (hw.reads + (c + 1) + i) = true
      rw [← Nat.add_assoc]; exact h3 i hi
    · right; omega
  unfold senseSample
  simp only [e1, e2]
  rw [if_neg (by omega), if_pos (by omega)]
  congr 2
  omega

theorem sampleLoop_add (s : Sensor) (T : Nat) (m : Nat) :
    ∀ (j : Nat) (hw : Hw) (total : Nat),
      sampleLoop s T (j + m) hw total =
        match sampleLoop s T j hw total with
        | (h, none) => (h, none)
        | (h, some t) => sampleLoop s T m h t := by
  intro j
  induction j with
  | zero => intro hw total; simp [sampleLoop]
  | succ j ih =>
    intro hw total
    rw [Nat.add_right_comm, sampleLoop, sampleLoop]
    by_cases hneg : (senseSample s T hw total).2.2 < 0
    · simp only [hneg, if_true]
    · simp only [hneg, if_false]
      exact ih _ _

theorem waitLoopAux_least (s : Sensor) (x T : Nat) (level : Bool) :
    ∀ (fuel : Nat) (hw : Hw) (total : Nat),
      waitLoopAux { s with _leastCheckedTime := x } T level fuel hw total =
        waitLoopAux s T level fuel hw total := by
  intro fuel
  induction fuel with
  | zero => intro hw total; rfl
  | succ f ih =>
    intro hw total
    rw [waitLoopAux, waitLoopAux]
    simp only [ih]

theorem senseSample_least (s : Sensor) (x T : Nat) (hw : Hw) (total : Nat) :
    senseSample { s with _leastCheckedTime := x } T hw total = senseSample s T hw total := by
  unfold senseSample waitLoop
  simp only [waitLoopAux_least]
  rfl

theorem sampleLoop_least (s : Sensor) (x T : Nat) :
    ∀ (n : Nat) (hw : Hw) (total : Nat),
      sampleLoop { s with _leastCheckedTime := x } T n hw total = sampleLoop s T n hw total := by
  intro n
  induction n with
  | zero => intro hw total; rfl
  | succ n ih =>
    intro hw total
    rw [sampleLoop, sampleLoop]
    simp only [senseSample_least, ih]

theorem check_of_timeout (s : Sensor) (T : Nat) (hw : Hw) (n : Nat) (hn : n ≠ 0)
    (h : (sampleLoop s T n hw 0).2 = none) :
    check s T hw n = (s, (sampleLoop s T n hw 0).1, -1) := by
  unfold check
  rw [if_neg hn]
  rcases hsl : sampleLoop s T n hw 0 with ⟨hw1, _ | t⟩
  · rfl
  · rw [hsl] at h; cases h

theorem check_of_success (s : Sensor) (T : Nat) (hw : Hw) (n r : Nat) (hn : n ≠ 0)
    (h : (sampleLoop s T n hw 0).2 = some r) :
    check s T hw n =
      ({ s with _leastCheckedTime := if r < s._leastCheckedTime then r else s._leastCheckedTime },
        (sampleLoop s T n hw 0).1,
        toLong (wrap32 (r + 2 ^ 32 -
          (if r < s._leastCheckedTime then r else s._leastCheckedTime)))) := by
  unfold check
  rw [if_neg hn]
  rcases hsl : sampleLoop s T n hw 0 with ⟨hw1, _ | t⟩
  · rw [hsl] at h; cases h
  · rw [hsl] at h
    cases h
    by_cases hlt : r < s._leastCheckedTime
    · simp only [hlt, if_true]
    · simp only [hlt, if_false]

theorem waitLoop_spec (s : Sensor) (T : Nat) (level : Bool) (hT : T < 2 ^ 32) (hw : Hw)
    (total : Nat) :
    ∃ c, c ≤ T - total ∧
      (∀ i, i < c → pinHigh s hw (hw.reads + i) = level ∧ total + i < T) ∧
      (pinHigh s hw (hw.reads + c) ≠ level ∨ T ≤ total + c) ∧
      ∀ fuel, c < fuel →
        waitLoopAux s T level fuel hw total = (advance s hw (c + 1), total + c) := by
  have hex : ∃ i, pinHigh s hw (hw.reads + i) ≠ level ∨ T ≤ total + i :=
    ⟨T - total, Or.inr (by omega)⟩
  have hrun : ∀ i, i < Nat.find hex → pinHigh s hw (hw.reads + i) = level ∧ total + i < T := by
    intro i hi
    have := Nat.find_min hex hi
    constructor
    · by_contra hne
      exact this (Or.inl hne)
    · by_contra hge
      exact this (Or.inr (by omega))
  refine ⟨Nat.find hex, Nat.find_min' hex (Or.inr (by omega)), hrun, Nat.find_spec hex, ?_⟩
  intro fuel hf
  exact waitLoopAux_exit s T level hT _ fuel hw total hf hrun (Nat.find_spec hex)

theorem waitLoopAux_fuel (s : Sensor) (T : Nat) (level : Bool) (hT : T < 2 ^ 32) (hw : Hw)
    (total fuel : Nat) (hf : T - total < fuel) :
    waitLoopAux s T level fuel hw total = waitLoop s T level hw total := by
  obtain ⟨c, hc, _, _, h⟩ := waitLoop_spec s T level hT hw total
  unfold waitLoop
  rw [h fuel (by omega), h (T - total + 1) (by omega)]

theorem senseSample_result (s : Sensor) (T : Nat) (hw : Hw) (total : Nat) :
    (senseSample s T hw total).2.2 = -1 ∨ (senseSample s T hw total).2.2 = 1 := by
  simp only [senseSample]
  split_ifs
  · left; rfl
  · left; rfl
  · right; rfl

theorem senseSample_timeout_iff (s : Sensor) (T : Nat) (hT : T < 2 ^ 32) (hw : Hw)
    (total : Nat) :
    (senseSample s T hw total).2.2 = -1 ↔ FailsToTransition s T hw total := by
  constructor
  · intro h
    obtain ⟨c, hc, hrun, hexit, hres⟩ := waitLoop_spec s T false hT (chargeSetup s hw) total
    have e1 : waitLoop s T false (chargeSetup s hw) total =
        (advance s (chargeSetup s hw) (c + 1), total + c) := hres _ (by omega)
    by_cases hto : T ≤ total + c
    · left
      intro i hi
      have hic : i < c ∨ c ≤ i := Nat.lt_or_ge i c
      rcases hic with hic | hic
      · exact (hrun i hic).1
      · rcases Nat.eq_zero_or_pos c with h0 | h0
        · omega
        · have := (hrun (c - 1) (by omega)).2
          omega
    · right
      have hhigh : pinHigh s hw (hw.reads + c) = true := by
        rcases hexit with hx | hx
        · have hx2 : pinHigh s (chargeSetup s hw) ((chargeSetup s hw).reads + c) =
              pinHigh s hw (hw.reads + c) := rfl
          rw [hx2] at hx
          simpa using hx
        · omega
      obtain ⟨d, hd, hrun2, hexit2, hres2⟩ := waitLoop_spec s T true hT
        (dischargeSetup s (advance s (chargeSetup s hw) (c + 1))) (total + c)
      have e2 : waitLoop s T true (dischargeSetup s (advance s (chargeSetup s hw) (c + 1)))
          (total + c) =
          (advance s (dischargeSetup s (advance s (chargeSetup s hw) (c + 1))) (d + 1),
            total + c + d) := hres2 _ (by omega)
      have hd2 : T ≤ total + c + d := by
        by_contra hlt
        have h1 : (senseSample s T hw total).2.2 = 1 := by
          simp only [senseSample, e1, e2]
          rw [if_neg hto, if_neg hlt]
        rw [h1] at h
        cases h
      refine ⟨c, fun i hi => (hrun i hi).1, hhigh, by omega, ?_⟩
      intro i hi
      have hid : i < d := by
        rcases Nat.eq_zero_or_pos d with h0 | h0
        · omega
        · have := (hrun2 (d - 1) (by omega)).2
          omega
      have := (hrun2 i hid).1
      have e : (dischargeSetup s (advance s (chargeSetup s hw) (c + 1))).reads + i =
          hw.reads + c + 1 + i := rfl
      rw [e] at this
      exact this
  · intro h
    rcases h with h | ⟨c, h1, h2, hlt, h3⟩
    · rw [senseSample_charge_timeout s T hT hw total h]
    · rw [senseSample_discharge_timeout s T hT hw total c h1 h2 hlt h3]

theorem transitions_congr (s : Sensor) (hw1 hw2 : Hw) (c d : Nat)
    (hp : hw1.pdsr = hw2.pdsr) (hr : hw1.reads = hw2.reads) :
    Transitions s hw1 c d ↔ Transitions s hw2 c d := by
  unfold Transitions pinHigh
  rw [hp, hr]

theorem pinNeeds_congr (s : Sensor) (cds : List (Nat × Nat)) :
    ∀ (hw1 hw2 : Hw), hw1.pdsr = hw2.pdsr → hw1.reads = hw2.reads →
      (PinNeeds s hw1 cds ↔ PinNeeds s hw2 cds) := by
  induction cds with
  | nil => intro hw1 hw2 _ _; exact Iff.rfl
  | cons p rest ih =>
    intro hw1 hw2 hp hr
    simp only [PinNeeds]
    rw [transitions_congr s hw1 hw2 p.1 p.2 hp hr]
    rw [ih { hw1 with reads := hw1.reads + p.1 + p.2 + 2 }
      { hw2 with reads := hw2.reads + p.1 + p.2 + 2 } hp (by simp [hr])]

theorem senseSample_success_inv (s : Sensor) (T : Nat) (hT : T < 2 ^ 32) (hw : Hw)
    (total : Nat) (h : ¬ (senseSample s T hw total).2.2 < 0) :
    ∃ c d, Transitions s hw c d ∧ total + c + d < T ∧
      senseSample s T hw total =
        (advance s (dischargeSetup s (advance s (chargeSetup s hw) (c + 1))) (d + 1),
          total + c + d, 1) := by
  obtain ⟨c, hc, hrun, hexit, hres⟩ := waitLoop_spec s T false hT (chargeSetup s hw) total
  have e1 : waitLoop s T false (chargeSetup s hw) total =
      (advance s (chargeSetup s hw) (c + 1), total + c) := hres _ (by omega)
  have hto : ¬ T ≤ total + c := by
    intro hto
    apply h
    simp only [senseSample, e1]
    rw [if_pos hto]
    show (-1 : Int) < 0
    decide
  obtain ⟨d, hd, hrun2, hexit2, hres2⟩ := waitLoop_spec s T true hT
    (dischargeSetup s (advance s (chargeSetup s hw) (c + 1))) (total + c)
  have e2 : waitLoop s T true (dischargeSetup s (advance s (chargeSetup s hw) (c + 1)))
      (total + c) =
      (advance s (dischargeSetup s (advance s (chargeSetup s hw) (c + 1))) (d + 1),
        total + c + d) := hres2 _ (by omega)
  have hto2 : ¬ T ≤ total + c + d := by
    intro hto2
    apply h
    simp only [senseSample, e1, e2]
    rw [if_neg hto, if_pos hto2]
    show (-1 : Int) < 0
    decide
  refine ⟨c, d, ⟨fun i hi => (hrun i hi).1, ?_, ?_, ?_⟩, by omega, ?_⟩
  · rcases hexit with hx | hx
    · have hx2 : pinHigh s hw (hw.reads + c) ≠ false := hx
      simpa using hx2
    · omega
  · intro i hi
    have := (hrun2 i hi).1
    have e : (dischargeSetup s (advance s (chargeSetup s hw) (c + 1))).reads + i =
        hw.reads + c + 1 + i := rfl
    rw [e] at this
    exact this
  · rcases hexit2 with hx | hx
    · have e : (dischargeSetup s (advance s (chargeSetup s hw) (c + 1))).reads + d =
          hw.reads + c + 1 + d := rfl
      rw [e] at hx
      have hx2 : pinHigh s hw (hw.reads + c + 1 + d) ≠ true := hx
      simpa using hx2
    · omega
  · simp only [senseSample, e1, e2]
    rw [if_neg hto, if_neg hto2]

theorem sumCounts_cons (p : Nat × Nat) (rest : List (Nat × Nat)) :
    sumCounts (p :: rest) = p.1 + p.2 + sumCounts rest := by
  simp [sumCounts]

theorem sumCounts_take_le (cds : List (Nat × Nat)) :
    ∀ j : Nat, sumCounts (cds.take j) ≤ sumCounts cds := by
  induction cds with
  | nil => intro j; simp [sumCounts]
  | cons p rest ih =>
    intro j
    cases j with
    | zero => simp [sumCounts]
    | succ j =>
      rw [List.take_succ_cons, sumCounts_cons, sumCounts_cons]
      have := ih j
      omega

theorem pinNeeds_take (s : Sensor) (cds : List (Nat × Nat)) :
    ∀ (hw : Hw) (j : Nat), PinNeeds s hw cds → PinNeeds s hw (cds.take j) := by
  induction cds with
  | nil => intro hw j h; simpa using h
  | cons p rest ih =>
    intro hw j h
    cases j with
    | zero => exact trivial
    | succ j =>
      rw [List.take_succ_cons]
      exact ⟨h.1, ih _ j h.2⟩

theorem sampleLoop_of_pinNeeds (s : Sensor) (T : Nat) (hT : T < 2 ^ 32)
    (cds : List (Nat × Nat)) :
    ∀ (hw : Hw) (total : Nat), PinNeeds s hw cds → total + sumCounts cds < T →
      (sampleLoop s T cds.length hw total).2 = some (total + sumCounts cds) := by
  induction cds with
  | nil => intro hw total _ _; simp [sampleLoop, sumCounts]
  | cons p rest ih =>
    intro hw total hp hlt
    rw [sumCounts_cons] at hlt
    rw [List.length_cons, sampleLoop,
      senseSample_success s T hT hw total p.1 p.2 hp.1 (by omega)]
    simp only []
    rw [if_neg (by decide)]
    have hp2 : PinNeeds s
        (advance s (dischargeSetup s (advance s (chargeSetup s hw) (p.1 + 1))) (p.2 + 1))
        rest :=
      (pinNeeds_congr s rest
        (advance s (dischargeSetup s (advance s (chargeSetup s hw) (p.1 + 1))) (p.2 + 1))
        { hw with reads := hw.reads + p.1 + p.2 + 2 } rfl (by
          show hw.reads + (p.1 + 1) + (p.2 + 1) = hw.reads + p.1 + p.2 + 2
          omega)).mpr hp.2
    rw [ih _ _ hp2 (by omega), sumCounts_cons]
    congr 1
    omega

theorem sampleLoop_success_inv (s : Sensor) (T : Nat) (hT : T < 2 ^ 32) :
    ∀ (n : Nat) (hw : Hw) (total r : Nat), (sampleLoop s T n hw total).2 = some r →
      ∃ cds : List (Nat × Nat), cds.length = n ∧ PinNeeds s hw cds ∧
        r = total + sumCounts cds ∧ (n ≠ 0 → r < T) := by
  intro n
  induction n with
  | zero =>
    intro hw total r h
    refine ⟨[], rfl, trivial, ?_, fun h0 => absurd rfl h0⟩
    have : total = r := Option.some.inj h
    simp [sumCounts, this]
  | succ n ih =>
    intro hw total r h
    rw [sampleLoop] at h
    by_cases hneg : (senseSample s T hw total).2.2 < 0
    · simp [hneg] at h
    · simp only [hneg, if_false] at h
      obtain ⟨c, d, htr, hlt, hss⟩ := senseSample_success_inv s T hT hw total hneg
      have h2 : (sampleLoop s T n
          (advance s (dischargeSetup s (advance s (chargeSetup s hw) (c + 1))) (d + 1))
          (total + c + d)).2 = some r := by
        rw [hss] at h; exact h
      obtain ⟨cds, hlen, hpn, hr, hrlt⟩ := ih _ _ r h2
      have hpn2 : PinNeeds s { hw with reads := hw.reads + c + d + 2 } cds :=
        (pinNeeds_congr s cds
          (advance s (dischargeSetup s (advance s (chargeSetup s hw) (c + 1))) (d + 1))
          { hw with reads := hw.reads + c + d + 2 } rfl (by
            show hw.reads + (c + 1) + (d + 1) = hw.reads + c + d + 2
            omega)).mp hpn
      refine ⟨(c, d) :: cds, by simp [hlen], ⟨htr, hpn2⟩, ?_, ?_⟩
      · rw [sumCounts_cons]
        show r = total + (c + d + sumCounts cds)
        omega
      · intro _
        by_cases hn0 : n = 0
        · subst hn0
          have hnil : cds = [] := List.length_eq_zero.mp hlen
          subst hnil
          simp [sumCounts] at hr
          omega
        · exact hrlt hn0

theorem irqReplay_append (xs ys : List Event) :
    ∀ flag : Bool, irqReplay flag (xs ++ ys) = irqReplay flag xs ++ irqReplay (irqAfter flag xs) ys := by
  induction xs with
  | nil => intro flag; rfl
  | cons e xs ih =>
    intro flag
    cases e <;> simp [irqReplay, irqAfter, ih]

theorem irqAfter_append (xs ys : List Event) :
    ∀ flag : Bool, irqAfter flag (xs ++ ys) = irqAfter (irqAfter flag xs) ys := by
  induction xs with
  | nil => intro flag; rfl
  | cons e xs ih =>
    intro flag
    cases e <;> simp [irqAfter, ih]

theorem irqReplay_reads (a : Nat) (flag : Bool) :
    ∀ k : Nat, irqReplay flag (List.replicate k (Event.regRead a)) =
      (List.replicate k (Event.regRead a)).map (fun e => (e, flag)) := by
  intro k
  induction k with
  | zero => rfl
  | succ k ih => simp [List.replicate_succ, irqReplay, ih]

theorem irqAfter_reads (a : Nat) (flag : Bool) :
    ∀ k : Nat, irqAfter flag (List.replicate k (Event.regRead a)) = flag := by
  intro k
  induction k with
  | zero => rfl
  | succ k ih => simp [List.replicate_succ, irqAfter, ih]

theorem waitLoopAux_advance (s : Sensor) (T : Nat) (level : Bool) :
    ∀ (fuel : Nat) (hw : Hw) (total : Nat),
      ∃ k, (fuel ≠ 0 → k ≠ 0) ∧ (waitLoopAux s T level fuel hw total).1 = advance s hw k := by
  intro fuel
  induction fuel with
  | zero => intro hw total; exact ⟨0, fun h => absurd rfl h, (advance_zero s hw).symm⟩
  | succ f ih =>
    intro hw total
    rw [waitLoopAux_succ]
    split_ifs
    · obtain ⟨k, _, hk⟩ := ih (advance s hw 1) (wrap32 (total + 1))
      refine ⟨1 + k, fun _ => by omega, ?_⟩
      rw [hk, advance_advance]
    · exact ⟨1, fun _ => by omega, rfl⟩

theorem waitLoop_advance (s : Sensor) (T : Nat) (level : Bool) (hw : Hw) (total : Nat) :
    ∃ k, (waitLoop s T level hw total).1 = advance s hw (k + 1) := by
  obtain ⟨k, hk0, hk⟩ := waitLoopAux_advance s T level (T - total + 1) hw total
  refine ⟨k - 1, ?_⟩
  have : k - 1 + 1 = k := by
    have := hk0 (by omega)
    omega
  rw [this]
  exact hk

theorem chargeSetup_trace (s : Sensor) (hw : Hw) :
    ∃ v1 v2 v3, (chargeSetup s hw).trace = hw.trace ++
      [Event.noInterrupts, Event.regRead s._sendOutRegister,
        Event.regWrite s._sendOutRegister v1, Event.pinMode s._receivePin PinMode.INPUT,
        Event.regRead s._receiveOutRegister, Event.regWrite s._receiveOutRegister v2,
        Event.pinMode s._receivePin PinMode.OUTPUT, Event.pinMode s._receivePin PinMode.INPUT,
        Event.regRead s._sendOutRegister, Event.regWrite s._sendOutRegister v3,
        Event.interrupts] :=
  ⟨_, _, _, by
    simp [chargeSetup, noInterrupts, regClear, pinMode, regSet, interrupts]
    exact ⟨rfl, rfl, rfl⟩⟩

theorem dischargeSetup_trace (s : Sensor) (hw : Hw) :
    ∃ v1 v2 v3, (dischargeSetup s hw).trace = hw.trace ++
      [Event.noInterrupts, Event.regRead s._receiveOutRegister,
        Event.regWrite s._receiveOutRegister v1,
        Event.pinMode s._receivePin PinMode.OUTPUT, Event.pinMode s._receivePin PinMode.INPUT,
        Event.regRead s._receiveOutRegister, Event.regWrite s._receiveOutRegister v2,
        Event.regRead s._sendOutRegister, Event.regWrite s._sendOutRegister v3,
        Event.interrupts] :=
  ⟨_, _, _, by
    simp [dischargeSetup, noInterrupts, regClear, pinMode, regSet, interrupts]
    exact ⟨rfl, rfl, rfl⟩⟩

theorem waitLoopAux_irq (s : Sensor) (T : Nat) (level : Bool) (fuel : Nat) (hw : Hw)
    (total : Nat) : (waitLoopAux s T level fuel hw total).1.irq = hw.irq := by
  obtain ⟨k, _, hk⟩ := waitLoopAux_advance s T level fuel hw total
  rw [hk]
  rfl

theorem senseSample_irq (s : Sensor) (T : Nat) (hw : Hw) (total : Nat) :
    (senseSample s T hw total).1.irq = true := by
  simp only [senseSample, waitLoop]
  split_ifs <;> simp only [waitLoopAux_irq] <;> rfl

theorem sampleLoop_irq (s : Sensor) (T : Nat) :
    ∀ (n : Nat) (hw : Hw) (total : Nat), (n ≠ 0 ∨ hw.irq = true) →
      (sampleLoop s T n hw total).1.irq = true := by
  intro n
  induction n with
  | zero =>
    intro hw total h
    rcases h with h | h
    · exact absurd rfl h
    · exact h
  | succ n ih =>
    intro hw total _
    rw [sampleLoop]
    split_ifs
    · exact senseSample_irq s T hw total
    · exact ih _ _ (Or.inr (senseSample_irq s T hw total))

theorem testBit_clear (x m i : Nat) (hx : x < 2 ^ 32) (hm : m < 2 ^ 32) :
    (x &&& (2 ^ 32 - 1 - m)).testBit i = (x.testBit i && !m.testBit i) := by
  have e : 2 ^ 32 - 1 - m = 2 ^ 32 - (m + 1) := by omega
  rw [e, Nat.testBit_land, Nat.testBit_two_pow_sub_succ hm]
  by_cases hi : i < 32
  · simp [hi]
  · have : x.testBit i = false :=
      Nat.testBit_lt_two_pow (Nat.lt_of_lt_of_le hx (Nat.pow_le_pow_right (by decide) (by omega)))
    simp [this]

theorem clear_land_self (x m : Nat) (hx : x < 2 ^ 32) (hm : m < 2 ^ 32) :
    (x &&& (2 ^ 32 - 1 - m)) &&& m = 0 := by
  apply Nat.eq_of_testBit_eq
  intro i
  rw [Nat.testBit_land, testBit_clear x m i hx hm, Nat.zero_testBit]
  cases x.testBit i <;> cases m.testBit i <;> rfl

theorem land_clear_other (y m k : Nat) (hy : y < 2 ^ 32) (hk : k < 2 ^ 32) (h : y &&& m = 0) :
    (y &&& (2 ^ 32 - 1 - k)) &&& m = 0 := by
  apply Nat.eq_of_testBit_eq
  intro i
  have hi := congrArg (fun z => z.testBit i) h
  simp only [Nat.testBit_land, Nat.zero_testBit] at hi
  rw [Nat.testBit_land, testBit_clear y k i hy hk, Nat.zero_testBit]
  cases hy1 : y.testBit i <;> cases hm1 : m.testBit i <;> simp_all

theorem frame_refl (s : Sensor) (hw : Hw) : ChangesOnlyMaskBits s hw hw :=
  fun _ _ h => absurd rfl h

theorem frame_of_odsr_eq (s : Sensor) (hw0 hw hw1 : Hw) (h : hw1.odsr = hw.odsr)
    (hf : ChangesOnlyMaskBits s hw0 hw) : ChangesOnlyMaskBits s hw0 hw1 := by
  intro a i hne
  rw [h] at hne
  exact hf a i hne

theorem frame_update (s : Sensor) (hw0 hw hw1 : Hw) (reg m v : Nat)
    (hreg : (reg = s._sendOutRegister ∧ m = s._sendBitmask) ∨
      (reg = s._receiveOutRegister ∧ m = s._receiveBitmask))
    (h : hw1.odsr = Function.update hw.odsr reg v)
    (hv : ∀ i, v.testBit i ≠ (hw.odsr reg).testBit i → m.testBit i = true)
    (hf : ChangesOnlyMaskBits s hw0 hw) : ChangesOnlyMaskBits s hw0 hw1 := by
  intro a i hne
  rw [h] at hne
  by_cases ha : a = reg
  · subst ha
    rw [Function.update_same] at hne
    by_cases hstep : v.testBit i = (hw.odsr a).testBit i
    · rw [hstep] at hne
      exact hf a i hne
    · have hm := hv i hstep
      rcases hreg with ⟨h1, h2⟩ | ⟨h1, h2⟩
      · left; exact ⟨h1, h2 ▸ hm⟩
      · right; exact ⟨h1, h2 ▸ hm⟩
  · rw [Function.update_noteq ha] at hne
    exact hf a i hne

theorem frame_regClear (s : Sensor) (hw0 hw : Hw) (reg m : Nat)
    (hreg : (reg = s._sendOutRegister ∧ m = s._sendBitmask) ∨
      (reg = s._receiveOutRegister ∧ m = s._receiveBitmask))
    (hm : m < 2 ^ 32) (h32 : ∀ a, hw.odsr a < 2 ^ 32)
    (hf : ChangesOnlyMaskBits s hw0 hw) :
    ChangesOnlyMaskBits s hw0 (regClear hw reg m) ∧ ∀ a, (regClear hw reg m).odsr a < 2 ^ 32 := by
  constructor
  · apply frame_update s hw0 hw _ reg m _ hreg rfl _ hf
    intro i hne
    rw [testBit_clear _ m i (h32 reg) hm] at hne
    cases hx : (hw.odsr reg).testBit i <;> cases hmi : m.testBit i <;> simp_all
  · intro a
    show Function.update hw.odsr reg _ a < 2 ^ 32
    by_cases ha : a = reg
    · subst ha
      rw [Function.update_same]
      exact Nat.lt_of_le_of_lt Nat.and_le_left (h32 a)
    · rw [Function.update_noteq ha]
      exact h32 a

theorem frame_regSet (s : Sensor) (hw0 hw : Hw) (reg m : Nat)
    (hreg : (reg = s._sendOutRegister ∧ m = s._sendBitmask) ∨
      (reg = s._receiveOutRegister ∧ m = s._receiveBitmask))
    (hm : m < 2 ^ 32) (h32 : ∀ a, hw.odsr a < 2 ^ 32)
    (hf : ChangesOnlyMaskBits s hw0 hw) :
    ChangesOnlyMaskBits s hw0 (regSet hw reg m) ∧ ∀ a, (regSet hw reg m).odsr a < 2 ^ 32 := by
  constructor
  · apply frame_update s hw0 hw _ reg m _ hreg rfl _ hf
    intro i hne
    rw [Nat.testBit_lor] at hne
    cases hx : (hw.odsr reg).testBit i <;> cases hmi : m.testBit i <;> simp_all
  · intro a
    show Function.update hw.odsr reg _ a < 2 ^ 32
    by_cases ha : a = reg
    · subst ha
      rw [Function.update_same]
      exact Nat.or_lt_two_pow (h32 a) hm
    · rw [Function.update_noteq ha]
      exact h32 a

/-! ## Lemmas on sequences of calls -/

theorem checks_eq (s : Sensor) :
    ∀ (calls : List Call) (rs : List Nat) (l : Nat),
      List.Forall₂ (fun c r => c.samples ≠ 0 ∧ rawTotal s c = some r) calls rs →
      checks { s with _leastCheckedTime := l } calls =
        ({ s with _leastCheckedTime := baselineFrom l rs }, returnsFrom l rs) := by
  intro calls rs l h
  induction h generalizing l with
  | nil => rfl
  | @cons c r cs rs' hc _ ih =>
    obtain ⟨hn, hr⟩ := hc
    have hr2 : (sampleLoop { s with _leastCheckedTime := l } c.T c.samples c.hw 0).2 = some r := by
      rw [sampleLoop_least]; exact hr
    rw [checks]
    simp only [check_of_success _ c.T c.hw c.samples r hn hr2]
    rw [ih]
    rfl

theorem baselineFrom_le (rs : List Nat) : ∀ l : Nat, baselineFrom l rs ≤ l := by
  induction rs with
  | nil => intro l; exact Nat.le_refl l
  | cons r rs ih =>
    intro l
    rw [baselineFrom]
    have h1 := ih (if r < l then r else l)
    have h2 : (if r < l then r else l) ≤ l := by split_ifs <;> omega
    omega

theorem baselineFrom_le_mem (rs : List Nat) :
    ∀ l : Nat, ∀ x ∈ rs, baselineFrom l rs ≤ x := by
  induction rs with
  | nil => intro l x hx; cases hx
  | cons r rs ih =>
    intro l x hx
    rw [baselineFrom]
    rcases List.mem_cons.mp hx with rfl | hx
    · have h1 := baselineFrom_le rs (if x < l then x else l)
      have h2 : (if x < l then x else l) ≤ x := by split_ifs <;> omega
      omega
    · exact ih _ x hx

theorem baselineFrom_mem (rs : List Nat) :
    ∀ l : Nat, baselineFrom l rs = l ∨ baselineFrom l rs ∈ rs := by
  induction rs with
  | nil => intro l; left; rfl
  | cons r rs ih =>
    intro l
    rw [baselineFrom]
    rcases ih (if r < l then r else l) with h | h
    · rw [h]
      by_cases hlt : r < l
      · right; simp [hlt]
      · left; simp [hlt]
    · right; exact List.mem_cons_of_mem _ h

theorem baselineFrom_append (xs ys : List Nat) :
    ∀ l : Nat, baselineFrom l (xs ++ ys) = baselineFrom (baselineFrom l xs) ys := by
  induction xs with
  | nil => intro l; rfl
  | cons r xs ih => intro l; exact ih _

theorem toLong_sub (r l : Nat) (hr : r ≤ LONG_MAX) (hl : l ≤ r) :
    toLong (wrap32 (r + 2 ^ 32 - l)) = (r : Int) - (l : Int) := by
  have hr2 : r < 2 ^ 31 := by unfold LONG_MAX at hr; omega
  have e : r + 2 ^ 32 - l = (r - l) + 2 ^ 32 := by omega
  have hw : wrap32 (r + 2 ^ 32 - l) = r - l := by
    unfold wrap32
    rw [e, Nat.add_mod_right]
    exact Nat.mod_eq_of_lt (by omega)
  rw [hw]
  unfold toLong
  rw [if_pos (by omega)]
  omega

theorem returnsFrom_get (rs : List Nat) (hrs : ∀ x ∈ rs, x ≤ LONG_MAX) :
    ∀ (l i r : Nat), rs[i]? = some r →
      (returnsFrom l rs)[i]? = some ((r : Int) - (baselineFrom l (rs.take (i + 1)) : Int)) := by
  induction rs with
  | nil => intro l i r h; simp at h
  | cons r0 rs ih =>
    intro l i r h
    have h0 : r0 ≤ LONG_MAX := hrs r0 (List.mem_cons_self _ _)
    cases i with
    | zero =>
      simp only [List.getElem?_cons_zero, Option.some.injEq] at h
      subst h
      simp only [returnsFrom, List.getElem?_cons_zero, Nat.zero_add, List.take_succ_cons,
        List.take_zero, baselineFrom, Option.some.injEq]
      apply toLong_sub _ _ h0
      split_ifs with hlt <;> omega
    | succ i =>
      simp only [List.getElem?_cons_succ] at h
      simp only [returnsFrom, List.getElem?_cons_succ, List.take_succ_cons, baselineFrom]
      exact ih (fun x hx => hrs x (List.mem_cons_of_mem _ hx)) _ i r h

theorem returnsFrom_length (rs : List Nat) : ∀ l : Nat, (returnsFrom l rs).length = rs.length := by
  induction rs with
  | nil => intro l; rfl
  | cons r rs ih => intro l; simp [returnsFrom, ih]

theorem mem_take_succ_of_getElem? {rs : List Nat} :
    ∀ {i r : Nat}, rs[i]? = some r → r ∈ rs.take (i + 1) := by
  induction rs with
  | nil => intro i r h; simp at h
  | cons r0 rs ih =>
    intro i r h
    cases i with
    | zero =>
      simp only [List.getElem?_cons_zero, Option.some.injEq] at h
      subst h
      simp
    | succ i =>
      simp only [List.getElem?_cons_succ] at h
      rw [List.take_succ_cons]
      exact List.mem_cons_of_mem _ (ih h)

theorem forall₂_right {α β : Type} {P : α → β → Prop} {Q : β → Prop} {xs : List α}
    {ys : List β} (h : List.Forall₂ (fun a b => P a b ∧ Q b) xs ys) :
    List.Forall₂ P xs ys ∧ ∀ y ∈ ys, Q y := by
  induction h with
  | nil => exact ⟨List.Forall₂.nil, fun y hy => by cases hy⟩
  | cons hab _ ih =>
    refine ⟨List.Forall₂.cons hab.1 ih.1, ?_⟩
    intro y hy
    rcases List.mem_cons.mp hy with rfl | hy
    · exact hab.2
    · exact ih.2 y hy

theorem fresh_running_min (rs : List Nat) (hrs : ∀ x ∈ rs, x ≤ LONG_MAX) (i r : Nat)
    (h : rs[i]? = some r) :
    baselineFrom ULONG_MAX (rs.take (i + 1)) ∈ rs.take (i + 1) := by
  rcases baselineFrom_mem (rs.take (i + 1)) ULONG_MAX with hm | hm
  · have hr := mem_take_succ_of_getElem? h
    have h1 := baselineFrom_le_mem (rs.take (i + 1)) ULONG_MAX r hr
    have h2 := hrs r (List.mem_of_mem_take hr)
    rw [hm] at h1
    unfold ULONG_MAX at h1
    unfold LONG_MAX at h2
    omega
  · exact hm


/-! ## The claims -/

/-- C1. On a freshly constructed sensor, for every non-empty sequence of successful
`check` calls (sample count at least 1, no timeout) whose raw accumulated totals are
`r_1 .. r_n`, each at most `LONG_MAX`: the `i`-th call returns `r_i - m`, where `m` is
the least of `r_1 .. r_i`; every returned value is non-negative; and the value `0` is
returned at least once. -/
theorem check_returns_total_minus_running_min (hal : HAL) (sendPin receivePin : Nat)
    (hw0 : Hw) (calls : List Call) (rs : List Nat) (hne : calls ≠ [])
    (hcalls : List.Forall₂
      (fun c r => (c.samples ≠ 0 ∧ rawTotal (construct hal sendPin receivePin hw0).1 c = some r)
        ∧ r ≤ LONG_MAX) calls rs) :
    (checks (construct hal sendPin receivePin hw0).1 calls).2.length = calls.length ∧
    (∀ i r, rs[i]? = some r →
      ∃ m, m ∈ rs.take (i + 1) ∧ (∀ x ∈ rs.take (i + 1), m ≤ x) ∧
        (checks (construct hal sendPin receivePin hw0).1 calls).2[i]? =
          some ((r : Int) - (m : Int))) ∧
    (∀ v ∈ (checks (construct hal sendPin receivePin hw0).1 calls).2, 0 ≤ v) ∧
    (0 : Int) ∈ (checks (construct hal sendPin receivePin hw0).1 calls).2 := by
  obtain ⟨hsucc, hrs⟩ := forall₂_right hcalls
  have hlen := hsucc.length_eq
  have hchk := checks_eq (construct hal sendPin receivePin hw0).1 calls rs ULONG_MAX hsucc
  have hvs : (checks (construct hal sendPin receivePin hw0).1 calls).2 =
      returnsFrom ULONG_MAX rs := congrArg Prod.snd hchk
  rw [hvs]
  have hget : ∀ i r, rs[i]? = some r →
      ∃ m, m ∈ rs.take (i + 1) ∧ (∀ x ∈ rs.take (i + 1), m ≤ x) ∧
        (returnsFrom ULONG_MAX rs)[i]? = some ((r : Int) - (m : Int)) := by
    intro i r h
    exact ⟨_, fresh_running_min rs hrs i r h,
      baselineFrom_le_mem (rs.take (i + 1)) ULONG_MAX, returnsFrom_get rs hrs _ i r h⟩
  refine ⟨by rw [returnsFrom_length, hlen], hget, ?_, ?_⟩
  · intro v hv
    obtain ⟨i, hi⟩ := List.mem_iff_getElem?.mp hv
    have hil : i < rs.length := by
      have := (List.getElem?_eq_some_iff.mp hi).1
      rwa [returnsFrom_length] at this
    obtain ⟨m, _, hle, hm⟩ := hget i rs[i] (List.getElem?_eq_getElem hil)
    rw [hi] at hm
    have hv2 : v = (rs[i] : Int) - (m : Int) := Option.some.inj hm
    have := hle rs[i] (mem_take_succ_of_getElem? (List.getElem?_eq_getElem hil))
    omega
  · cases rs with
    | nil =>
      cases calls with
      | nil => exact absurd rfl hne
      | cons c cs => simp at hlen
    | cons r0 rs =>
      obtain ⟨m, hmem, _, hm⟩ := hget 0 r0 (List.getElem?_cons_zero)
      have hm0 : m = r0 := by simpa using hmem
      rw [hm0, Int.sub_self] at hm
      exact List.mem_iff_getElem?.mpr ⟨0, hm⟩

/-- Witness for C1: a fresh sensor on pins 2 and 3 of the simulated board and two
single-sample calls with raw totals 3 and 2. -/
theorem check_returns_total_minus_running_min_witness :
    (∀ i r, ([3, 2] : List Nat)[i]? = some r →
      ∃ m, m ∈ ([3, 2] : List Nat).take (i + 1) ∧
        (∀ x ∈ ([3, 2] : List Nat).take (i + 1), m ≤ x) ∧
        (checks (construct simHAL 2 3 (simHw 0 0 0)).1
          [⟨10, simHw 8 2 1, 1⟩, ⟨10, simHw 8 1 1, 1⟩]).2[i]? = some ((r : Int) - (m : Int))) ∧
    (0 : Int) ∈ (checks (construct simHAL 2 3 (simHw 0 0 0)).1
      [⟨10, simHw 8 2 1, 1⟩, ⟨10, simHw 8 1 1, 1⟩]).2 :=
  have h := check_returns_total_minus_running_min simHAL 2 3 (simHw 0 0 0)
    [⟨10, simHw 8 2 1, 1⟩, ⟨10, simHw 8 1 1, 1⟩] [3, 2] (by simp)
    (List.Forall₂.cons ⟨⟨by decide, by decide⟩, by decide⟩
      (List.Forall₂.cons ⟨⟨by decide, by decide⟩, by decide⟩ List.Forall₂.nil))
  ⟨h.2.1, h.2.2.2⟩

theorem senseSample_fails (s : Sensor) (T : Nat) (hT : T < 2 ^ 32) (hw : Hw) (total : Nat)
    (h : FailsToTransition s T hw total) : (senseSample s T hw total).2.2 = -1 := by
  rcases h with h | ⟨c, h1, h2, hlt, h3⟩
  · rw [senseSample_charge_timeout s T hT hw total h]
  · rw [senseSample_discharge_timeout s T hT hw total c h1 h2 hlt h3]

theorem sampleLoop_fails (s : Sensor) (T : Nat) (hT : T < 2 ^ 32) (hw : Hw) (n j : Nat)
    (hj : j < n) (hwj : Hw) (tj : Nat) (hpre : sampleLoop s T j hw 0 = (hwj, some tj))
    (hfail : FailsToTransition s T hwj tj) : (sampleLoop s T n hw 0).2 = none := by
  obtain ⟨m, rfl⟩ : ∃ m, n = j + (m + 1) := ⟨n - j - 1, by omega⟩
  rw [sampleLoop_add, hpre]
  show (sampleLoop s T (m + 1) hwj tj).2 = none
  rw [sampleLoop]
  have := senseSample_fails s T hT hwj tj hfail
  simp only [this]
  rfl

/-- C2. For every sensor state, every threshold `T` (an `unsigned long`) and every
sample count `n >= 1`: if, in any one of the `n` samples (sample `j + 1`, reached after
`j` completed samples), the receive pin fails to transition before the accumulator
reaches `T` in the charge or the discharge phase, then `check(n)` returns `-1` and
`_leastCheckedTime` after the call equals its value before the call. -/
theorem check_timeout_returns_minus_one (s : Sensor) (T : Nat) (hT : T < 2 ^ 32) (hw : Hw)
    (n j : Nat) (hj : j < n) (hwj : Hw) (tj : Nat)
    (hpre : sampleLoop s T j hw 0 = (hwj, some tj))
    (hfail : FailsToTransition s T hwj tj) :
    (check s T hw n).2.2 = -1 ∧
      (check s T hw n).1._leastCheckedTime = s._leastCheckedTime := by
  have h := sampleLoop_fails s T hT hw n j hj hwj tj hpre hfail
  rw [check_of_timeout s T hw n (by omega) h]
  exact ⟨rfl, rfl⟩

/-- Witness for C2: three samples requested with threshold 10; the first sample
completes with total 3 and the pin then stays LOW, so the second sample times out in
its charge phase. -/
theorem check_timeout_returns_minus_one_witness :
    (check (construct simHAL 2 3 (simHw 0 0 0)).1 10 (simHw 8 2 1) 3).2.2 = -1 ∧
      (check (construct simHAL 2 3 (simHw 0 0 0)).1 10 (simHw 8 2 1) 3).1._leastCheckedTime =
        (construct simHAL 2 3 (simHw 0 0 0)).1._leastCheckedTime :=
  check_timeout_returns_minus_one (construct simHAL 2 3 (simHw 0 0 0)).1 10 (by decide)
    (simHw 8 2 1) 3 1 (by decide)
    (sampleLoop (construct simHAL 2 3 (simHw 0 0 0)).1 10 1 (simHw 8 2 1) 0).1 3 rfl
    (Or.inl (by decide))

/-- C3. For every sensor state, threshold and hardware state, `check(0)` returns `0`
and leaves the hardware state as it was, in particular the record of register reads,
register writes, pin-mode changes and interrupt-mask changes, the output registers
and the interrupt flag; the sensor object, in particular `_leastCheckedTime`, is
unchanged. -/
theorem check_zero_samples (s : Sensor) (T : Nat) (hw : Hw) :
    (check s T hw 0).2.2 = 0 ∧
      (check s T hw 0).2.1.trace = hw.trace ∧
      (check s T hw 0).2.1 = hw ∧
      (check s T hw 0).1._leastCheckedTime = s._leastCheckedTime ∧
      (check s T hw 0).1 = s :=
  ⟨rfl, rfl, rfl, rfl, rfl⟩

theorem waitLoopAux_lt (s : Sensor) (T : Nat) (level : Bool) :
    ∀ (fuel : Nat) (hw : Hw) (total : Nat), total < 2 ^ 32 →
      (waitLoopAux s T level fuel hw total).2 < 2 ^ 32 := by
  intro fuel
  induction fuel with
  | zero => intro hw total h; exact h
  | succ f ih =>
    intro hw total h
    rw [waitLoopAux_succ]
    split_ifs
    · exact ih _ _ (Nat.mod_lt _ (by decide))
    · exact h

theorem senseSample_lt (s : Sensor) (T : Nat) (hw : Hw) (total : Nat) (h : total < 2 ^ 32) :
    (senseSample s T hw total).2.1 < 2 ^ 32 := by
  have h1 := waitLoopAux_lt s T false (T - total + 1) (chargeSetup s hw) total h
  simp only [senseSample, waitLoop]
  split_ifs
  · exact h1
  · exact waitLoopAux_lt s T true _ _ _ h1
  · exact waitLoopAux_lt s T true _ _ _ h1

theorem sampleLoop_lt (s : Sensor) (T : Nat) :
    ∀ (n : Nat) (hw : Hw) (total r : Nat), total < 2 ^ 32 →
      (sampleLoop s T n hw total).2 = some r → r < 2 ^ 32 := by
  intro n
  induction n with
  | zero =>
    intro hw total r h hr
    have : total = r := Option.some.inj hr
    omega
  | succ n ih =>
    intro hw total r h hr
    rw [sampleLoop] at hr
    by_cases hneg : (senseSample s T hw total).2.2 < 0
    · simp [hneg] at hr
    · simp only [hneg, if_false] at hr
      exact ih _ _ r (senseSample_lt s T hw total h) hr

/-- C4. For every freshly constructed sensor (baseline at the `ULONG_MAX` sentinel),
every threshold, every sample count `n >= 1` and every hardware state and pin
behaviour under which the call does not time out (the sample loop completes with raw
total `r`), the first `check` call returns `0` and sets `_leastCheckedTime` to `r`,
whatever `r` is. -/
theorem first_check_returns_zero (hal : HAL) (sendPin receivePin : Nat) (hw0 : Hw)
    (T : Nat) (hw : Hw) (n r : Nat) (hn : n ≠ 0)
    (hr : rawTotal (construct hal sendPin receivePin hw0).1 ⟨T, hw, n⟩ = some r) :
    (check (construct hal sendPin receivePin hw0).1 T hw n).2.2 = 0 ∧
      (check (construct hal sendPin receivePin hw0).1 T hw n).1._leastCheckedTime = r := by
  have hlt := sampleLoop_lt _ T n hw 0 r (by decide) hr
  rw [check_of_success _ T hw n r hn hr]
  show toLong (wrap32 (r + 2 ^ 32 - (if r < ULONG_MAX then r else ULONG_MAX))) = 0 ∧
    (if r < ULONG_MAX then r else ULONG_MAX) = r
  have hm : (if r < ULONG_MAX then r else ULONG_MAX) = r := by
    unfold ULONG_MAX
    split_ifs <;> omega
  rw [hm]
  refine ⟨?_, rfl⟩
  have : r + 2 ^ 32 - r = 2 ^ 32 := by omega
  rw [this]
  decide

/-- Witness for C4: a fresh sensor, threshold 10, one sample with raw total 3. -/
theorem first_check_returns_zero_witness :
    (check (construct simHAL 2 3 (simHw 0 0 0)).1 10 (simHw 8 2 1) 1).2.2 = 0 ∧
      (check (construct simHAL 2 3 (simHw 0 0 0)).1 10 (simHw 8 2 1) 1).1._leastCheckedTime = 3 :=
  first_check_returns_zero simHAL 2 3 (simHw 0 0 0) 10 (simHw 8 2 1) 1 3 (by decide)
    (by decide)

/-- Counterexample to C5 as stated: on a fresh sensor, three single-sample calls with
raw totals 100, 80 and 90 return 0, 0 and 10; the first call does not return 20. -/
theorem scenario_100_80_90_counterexample :
    rawTotal (construct simHAL 2 3 (simHw 0 0 0)).1 ⟨1000, simHw 8 60 40, 1⟩ = some 100 ∧
    rawTotal (construct simHAL 2 3 (simHw 0 0 0)).1 ⟨1000, simHw 8 50 30, 1⟩ = some 80 ∧
    rawTotal (construct simHAL 2 3 (simHw 0 0 0)).1 ⟨1000, simHw 8 45 45, 1⟩ = some 90 ∧
    (checks (construct simHAL 2 3 (simHw 0 0 0)).1
      [⟨1000, simHw 8 60 40, 1⟩, ⟨1000, simHw 8 50 30, 1⟩, ⟨1000, simHw 8 45 45, 1⟩]).2 =
      [0, 0, 10] ∧
    (checks (construct simHAL 2 3 (simHw 0 0 0)).1
      [⟨1000, simHw 8 60 40, 1⟩, ⟨1000, simHw 8 50 30, 1⟩, ⟨1000, simHw 8 45 45, 1⟩]).2 ≠
      [20, 0, 10] := by
  decide

/-- C5 (amended). On a freshly constructed sensor, three successive successful
single-sample `check` calls whose raw totals are 100, 80 and 90 (in that order) return
0, 0 and 10 respectively, and `_leastCheckedTime` after the third call is 80. -/
theorem scenario_100_80_90 (hal : HAL) (sendPin receivePin : Nat) (hw0 : Hw)
    (c1 c2 c3 : Call) (hs1 : c1.samples = 1) (hs2 : c2.samples = 1) (hs3 : c3.samples = 1)
    (hr1 : rawTotal (construct hal sendPin receivePin hw0).1 c1 = some 100)
    (hr2 : rawTotal (construct hal sendPin receivePin hw0).1 c2 = some 80)
    (hr3 : rawTotal (construct hal sendPin receivePin hw0).1 c3 = some 90) :
    (checks (construct hal sendPin receivePin hw0).1 [c1, c2, c3]).2 = [0, 0, 10] ∧
      (checks (construct hal sendPin receivePin hw0).1 [c1, c2, c3]).1._leastCheckedTime =
        80 := by
  have h := checks_eq (construct hal sendPin receivePin hw0).1 [c1, c2, c3] [100, 80, 90]
    ULONG_MAX
    (List.Forall₂.cons ⟨by omega, hr1⟩ (List.Forall₂.cons ⟨by omega, hr2⟩
      (List.Forall₂.cons ⟨by omega, hr3⟩ List.Forall₂.nil)))
  have e : checks (construct hal sendPin receivePin hw0).1 [c1, c2, c3] =
      ({ (construct hal sendPin receivePin hw0).1 with
          _leastCheckedTime := baselineFrom ULONG_MAX [100, 80, 90] },
        returnsFrom ULONG_MAX [100, 80, 90]) := h
  rw [e]
  have hv : returnsFrom ULONG_MAX [100, 80, 90] = [0, 0, 10] := by decide
  have hb : baselineFrom ULONG_MAX [100, 80, 90] = 80 := by decide
  exact ⟨hv, hb⟩

/-- Witness for C5 (amended): the three simulated calls of the counterexample. -/
theorem scenario_100_80_90_witness :
    (checks (construct simHAL 2 3 (simHw 0 0 0)).1
      [⟨1000, simHw 8 60 40, 1⟩, ⟨1000, simHw 8 50 30, 1⟩, ⟨1000, simHw 8 45 45, 1⟩]).2 =
      [0, 0, 10] ∧
    (checks (construct simHAL 2 3 (simHw 0 0 0)).1
      [⟨1000, simHw 8 60 40, 1⟩, ⟨1000, simHw 8 50 30, 1⟩,
        ⟨1000, simHw 8 45 45, 1⟩]).1._leastCheckedTime = 80 :=
  scenario_100_80_90 simHAL 2 3 (simHw 0 0 0) ⟨1000, simHw 8 60 40, 1⟩
    ⟨1000, simHw 8 50 30, 1⟩ ⟨1000, simHw 8 45 45, 1⟩ rfl rfl rfl
    (by decide) (by decide) (by decide)

theorem check_least_le (s : Sensor) (T : Nat) (hw : Hw) (n : Nat) :
    (check s T hw n).1._leastCheckedTime ≤ s._leastCheckedTime := by
  by_cases hn : n = 0
  · subst hn; exact Nat.le_refl _
  · rcases hsl : (sampleLoop s T n hw 0).2 with _ | r
    · rw [check_of_timeout s T hw n hn hsl]
    · rw [check_of_success s T hw n r hn hsl]
      show (if r < s._leastCheckedTime then r else s._leastCheckedTime) ≤ s._leastCheckedTime
      split_ifs <;> omega

/-- C6. `_leastCheckedTime` never increases: for every program state and every
operation on the sensor (`check` with any sample count, whether it succeeds, times out
or is the zero-sample no-op, and `setTimeout` with any argument), the baseline after
the operation is at most the baseline before it; and after a successful `check`
(sample count at least 1, raw total `r`) it equals the minimum of the baseline before
and `r`. -/
theorem baseline_never_increases (F_CPU : Nat) (p : Sketch) (op : Op) :
    (p.step F_CPU op).sensor._leastCheckedTime ≤ p.sensor._leastCheckedTime ∧
      ∀ n r, n ≠ 0 → rawTotal p.sensor ⟨p._timeout, p.hw, n⟩ = some r →
        (p.step F_CPU (Op.check n)).sensor._leastCheckedTime =
          min p.sensor._leastCheckedTime r := by
  constructor
  · cases op with
    | check n => exact check_least_le p.sensor p._timeout p.hw n
    | setTimeout t => exact Nat.le_refl _
  · intro n r hn hr
    show (check p.sensor p._timeout p.hw n).1._leastCheckedTime = _
    rw [check_of_success p.sensor p._timeout p.hw n r hn hr]
    show (if r < p.sensor._leastCheckedTime then r else p.sensor._leastCheckedTime) = _
    rw [Nat.min_def]
    split_ifs <;> omega

/-- Witness for C6: a sensor with baseline 7 and a single-sample call with raw
total 3. -/
theorem baseline_never_increases_witness :
    (Sketch.step 84000000
      ⟨10, { (construct simHAL 2 3 (simHw 0 0 0)).1 with _leastCheckedTime := 7 },
        simHw 8 2 1⟩ (Op.check 1)).sensor._leastCheckedTime = min 7 3 :=
  (baseline_never_increases 84000000
    ⟨10, { (construct simHAL 2 3 (simHw 0 0 0)).1 with _leastCheckedTime := 7 }, simHw 8 2 1⟩
    (Op.check 1)).2 1 3 (by decide) (by decide)

theorem fails_of_le (s : Sensor) (hw : Hw) (c d T : Nat) (h : Transitions s hw c d)
    (hT : T ≤ c + d) : FailsToTransition s T hw 0 := by
  obtain ⟨h1, h2, h3, _⟩ := h
  by_cases hc : T ≤ c
  · left
    intro i hi
    exact h1 i (by omega)
  · right
    refine ⟨c, h1, h2, by omega, ?_⟩
    intro i hi
    exact h3 i (by omega)

theorem check_one_of_transitions (s : Sensor) (hw : Hw) (c d T : Nat) (hT : T < 2 ^ 32)
    (h : Transitions s hw c d) (hlt : c + d < T) :
    (sampleLoop s T 1 hw 0).2 = some (c + d) := by
  rw [sampleLoop, senseSample_success s T hT hw 0 c d h (by omega)]
  simp [sampleLoop]

/-- Counterexample to C8 as stated: the simulated pin needs 5 loop iterations for each
transition; with threshold 3 (lower than 5) the single-sample call returns `-1`, but
with threshold 8 (higher than 5) it returns `-1` as well, because the accumulator
runs through both phases; only a threshold above 10 gives a reading. -/
theorem threshold_above_delay_counterexample :
    Transitions (construct simHAL 2 3 (simHw 0 0 0)).1 (simHw 8 5 5) 5 5 ∧
    (check (construct simHAL 2 3 (simHw 0 0 0)).1 3 (simHw 8 5 5) 1).2.2 = -1 ∧
    (3 < 8 ∧ 5 < 8) ∧
    (check (construct simHAL 2 3 (simHw 0 0 0)).1 8 (simHw 8 5 5) 1).2.2 = -1 ∧
    ¬ (0 ≤ (check (construct simHAL 2 3 (simHw 0 0 0)).1 8 (simHw 8 5 5) 1).2.2) ∧
    (check (construct simHAL 2 3 (simHw 0 0 0)).1 11 (simHw 8 5 5) 1).2.2 = 0 := by
  refine ⟨?_, by decide, by decide, by decide, by decide, by decide⟩
  unfold Transitions
  decide

/-- C8 (amended). For every simulated pin scenario in which the charge transition
takes `c` and the discharge transition takes `d` loop iterations (`c + d` at most
`LONG_MAX`) and for every pair of thresholds: a single-sample `check` run with a
threshold `T_low` not above `c + d` returns `-1`, while the same scenario run with a
threshold `T_high` above `c + d` returns a non-negative value.  The threshold is the
shared static, not a field of the object, and the outcome is the same on every
sensor instance `s`. -/
theorem threshold_decides_outcome (s : Sensor) (hw : Hw) (c d T_low T_high : Nat)
    (h : Transitions s hw c d) (hmax : c + d ≤ LONG_MAX)
    (hlow : T_low ≤ c + d) (hhigh : c + d < T_high) (hT : T_high < 2 ^ 32) :
    (check s T_low hw 1).2.2 = -1 ∧ 0 ≤ (check s T_high hw 1).2.2 := by
  have hmax2 : c + d < 2 ^ 31 := by unfold LONG_MAX at hmax; omega
  constructor
  · have hf := sampleLoop_fails s T_low (by omega) hw 1 0 (by omega) hw 0 rfl
      (fails_of_le s hw c d T_low h hlow)
    rw [check_of_timeout s T_low hw 1 (by omega) hf]
  · have hs := check_one_of_transitions s hw c d T_high hT h hhigh
    rw [check_of_success s T_high hw 1 (c + d) (by omega) hs]
    show 0 ≤ toLong (wrap32 (c + d + 2 ^ 32 -
      (if c + d < s._leastCheckedTime then c + d else s._leastCheckedTime)))
    rw [toLong_sub (c + d) _ hmax (by split_ifs <;> omega)]
    have : (if c + d < s._leastCheckedTime then c + d else s._leastCheckedTime) ≤ c + d := by
      split_ifs <;> omega
    omega

/-- Witness for C8 (amended): charge and discharge take 5 iterations each; threshold
10 gives `-1`, threshold 11 a non-negative value. -/
theorem threshold_decides_outcome_witness :
    (check (construct simHAL 2 3 (simHw 0 0 0)).1 10 (simHw 8 5 5) 1).2.2 = -1 ∧
      0 ≤ (check (construct simHAL 2 3 (simHw 0 0 0)).1 11 (simHw 8 5 5) 1).2.2 :=
  threshold_decides_outcome (construct simHAL 2 3 (simHw 0 0 0)).1 (simHw 8 5 5) 5 5 10 11
    (by unfold Transitions; decide) (by decide) (by decide) (by decide) (by decide)

/-- C9 (the code at the failing input). `LOOP_TIMING_FACTOR` is the `uint8_t` value
54, not 310; with `F_CPU` at 84 MHz the threshold in force when `setTimeout` was never
called, and the one set by `setTimeout(2000)`, is 107999 and not 620000. -/
theorem loop_timing_factor_is_54 :
    LOOP_TIMING_FACTOR = 54 ∧ LOOP_TIMING_FACTOR ≠ 310 ∧
      defaultTimeout 84000000 = 107999 ∧ defaultTimeout 84000000 ≠ 620000 ∧
      setTimeout 84000000 2000 = 107999 ∧
      setTimeout 84000000 2000 ≠ 2000 * 310 * 84000000 / 84000000 := by
  decide

/-- Counterexample to C10 as stated: the pin reads HIGH after 3 charge iterations and
LOW after 4 discharge iterations, so its transition delay is at most 4, which is below
the threshold 6; yet `senseSample` returns `-1` and leaves the accumulator at 6, not
at `3 + 4`. -/
theorem senseSample_delay_below_threshold_counterexample :
    Transitions (construct simHAL 2 3 (simHw 0 0 0)).1 (simHw 8 3 4) 3 4 ∧
    (3 ≤ 4 ∧ 4 ≤ 4 ∧ 4 < 6) ∧
    (senseSample (construct simHAL 2 3 (simHw 0 0 0)).1 6 (simHw 8 3 4) 0).2 = (6, -1) ∧
    (senseSample (construct simHAL 2 3 (simHw 0 0 0)).1 6 (simHw 8 3 4) 0).2 ≠ (3 + 4, 1) := by
  refine ⟨?_, by decide, by decide, by decide⟩
  unfold Transitions
  decide

/-- C10 (amended). For every threshold `T` (an `unsigned long`), starting accumulator
value 0 and simulated receive pin that first reads HIGH after `c` charge-loop
iterations and then first reads LOW after `d` discharge-loop iterations, with the sum
`c + d` of the two delays below `T`: one `senseSample` call succeeds (returns 1) and
leaves the accumulator equal to `c + d`; the charge loop alone leaves it at `c`, and
each of the two counts is below `T`. -/
theorem senseSample_total_is_charge_plus_discharge (s : Sensor) (T : Nat) (hT : T < 2 ^ 32)
    (hw : Hw) (c d : Nat) (h : Transitions s hw c d) (hlt : c + d < T) :
    (senseSample s T hw 0).2 = (c + d, 1) ∧
      (waitLoop s T false (chargeSetup s hw) 0).2 = c ∧ c < T ∧ d < T := by
  refine ⟨?_, ?_, by omega, by omega⟩
  · rw [senseSample_success s T hT hw 0 c d h (by omega)]
    simp
  · obtain ⟨h1, h2, _, _⟩ := h
    have e1 : waitLoop s T false (chargeSetup s hw) 0 =
        (advance s (chargeSetup s hw) (c + 1), 0 + c) := by
      apply waitLoop_exit s T false hT c
      · intro i hi
        exact ⟨h1 i hi, by omega⟩
      · left
        show pinHigh s hw (hw.reads + c) ≠ false
        rw [h2]; decide
    rw [e1]
    simp

/-- Witness for C10 (amended): 3 charge and 4 discharge iterations, threshold 8. -/
theorem senseSample_total_is_charge_plus_discharge_witness :
    (senseSample (construct simHAL 2 3 (simHw 0 0 0)).1 8 (simHw 8 3 4) 0).2 = (3 + 4, 1) ∧
      (waitLoop (construct simHAL 2 3 (simHw 0 0 0)).1 8 false
        (chargeSetup (construct simHAL 2 3 (simHw 0 0 0)).1 (simHw 8 3 4)) 0).2 = 3 ∧
      3 < 8 ∧ 4 < 8 :=
  senseSample_total_is_charge_plus_discharge (construct simHAL 2 3 (simHw 0 0 0)).1 8
    (by decide) (simHw 8 3 4) 3 4 (by unfold Transitions; decide) (by decide)

/-- C11. For every sample count `n >= 1` and every successful `check(n)` with raw total
`r`, there are per-sample iteration counts `(c_1, d_1) .. (c_n, d_n)` of the charge
and discharge loops (the pin behaviour `PinNeeds`) such that: the accumulator is 0
before the first sample and, for every `j <= n`, holds the sum of the counts of the
first `j` samples after `j` samples (it is never reset, sample `j + 1` continues from
the value sample `j` left); `r` is the sum over all `n` samples of
`c_j + d_j`; and `r` is the total from which `check` subtracts the baseline. -/
theorem raw_total_is_sum_over_samples (s : Sensor) (T : Nat) (hT : T < 2 ^ 32) (hw : Hw)
    (n r : Nat) (hn : n ≠ 0) (hr : rawTotal s ⟨T, hw, n⟩ = some r) :
    ∃ cds : List (Nat × Nat), cds.length = n ∧ PinNeeds s hw cds ∧
      (∀ j, j ≤ n → (sampleLoop s T j hw 0).2 = some (sumCounts (cds.take j))) ∧
      r = sumCounts cds ∧
      (check s T hw n).2.2 =
        toLong (wrap32 (sumCounts cds + 2 ^ 32 -
          (if sumCounts cds < s._leastCheckedTime then sumCounts cds
            else s._leastCheckedTime))) := by
  obtain ⟨cds, hlen, hpn, hsum, hlt⟩ := sampleLoop_success_inv s T hT n hw 0 r hr
  rw [Nat.zero_add] at hsum
  refine ⟨cds, hlen, hpn, ?_, hsum, ?_⟩
  · intro j hj
    have h1 := sampleLoop_of_pinNeeds s T hT (cds.take j) hw 0 (pinNeeds_take s cds hw j hpn)
      (by have := sumCounts_take_le cds j; have := hlt hn; omega)
    rw [List.length_take, hlen, Nat.min_eq_left hj, Nat.zero_add] at h1
    exact h1
  · rw [check_of_success s T hw n r hn hr, hsum]

/-- Witness for C11: two samples with counts `(2, 1)` and `(1, 1)`, threshold 20. -/
theorem raw_total_is_sum_over_samples_witness :
    ∃ cds : List (Nat × Nat), cds.length = 2 ∧
      PinNeeds (construct simHAL 2 3 (simHw 0 0 0)).1
        (simLevels 8 [false, false, true, true, false, false, true, true, false]) cds ∧
      (∀ j, j ≤ 2 → (sampleLoop (construct simHAL 2 3 (simHw 0 0 0)).1 20 j
        (simLevels 8 [false, false, true, true, false, false, true, true, false]) 0).2 =
          some (sumCounts (cds.take j))) ∧
      5 = sumCounts cds ∧
      (check (construct simHAL 2 3 (simHw 0 0 0)).1 20
        (simLevels 8 [false, false, true, true, false, false, true, true, false]) 2).2.2 =
        toLong (wrap32 (sumCounts cds + 2 ^ 32 -
          (if sumCounts cds < (construct simHAL 2 3 (simHw 0 0 0)).1._leastCheckedTime
            then sumCounts cds
            else (construct simHAL 2 3 (simHw 0 0 0)).1._leastCheckedTime))) :=
  raw_total_is_sum_over_samples (construct simHAL 2 3 (simHw 0 0 0)).1 20 (by decide)
    (simLevels 8 [false, false, true, true, false, false, true, true, false]) 2 5
    (by decide) (by decide)

theorem fails_of_total_le (s : Sensor) (hw : Hw) (c d T total : Nat)
    (h : Transitions s hw c d) (hT : T ≤ total + c + d) : FailsToTransition s T hw total := by
  obtain ⟨h1, h2, h3, _⟩ := h
  by_cases hc : T ≤ total + c
  · left
    intro i hi
    exact h1 i (by omega)
  · right
    refine ⟨c, h1, h2, by omega, ?_⟩
    intro i hi
    exact h3 i (by omega)

theorem sampleLoop_timeout_of_pinNeeds (s : Sensor) (T : Nat) (hT : T < 2 ^ 32)
    (cds : List (Nat × Nat)) :
    ∀ (hw : Hw) (total : Nat), cds ≠ [] → PinNeeds s hw cds → T ≤ total + sumCounts cds →
      (sampleLoop s T cds.length hw total).2 = none := by
  induction cds with
  | nil => intro hw total hne; exact absurd rfl hne
  | cons p rest ih =>
    intro hw total _ hp hle
    rw [sumCounts_cons] at hle
    rw [List.length_cons, sampleLoop]
    by_cases hfirst : T ≤ total + p.1 + p.2
    · have hf := (senseSample_timeout_iff s T hT hw total).mpr
        (fails_of_total_le s hw p.1 p.2 T total hp.1 hfirst)
      simp only [hf]
      rfl
    · rw [senseSample_success s T hT hw total p.1 p.2 hp.1 (by omega)]
      simp only []
      rw [if_neg (by decide)]
      have hp2 : PinNeeds s
          (advance s (dischargeSetup s (advance s (chargeSetup s hw) (p.1 + 1))) (p.2 + 1))
          rest :=
        (pinNeeds_congr s rest
          (advance s (dischargeSetup s (advance s (chargeSetup s hw) (p.1 + 1))) (p.2 + 1))
          { hw with reads := hw.reads + p.1 + p.2 + 2 } rfl (by
            show hw.reads + (p.1 + 1) + (p.2 + 1) = hw.reads + p.1 + p.2 + 2
            omega)).mpr hp.2
      have hrest : rest ≠ [] := by
        intro hnil
        subst hnil
        simp [sumCounts] at hle
        omega
      exact ih _ _ hrest hp2 (by omega)

/-- Counterexample to C12 as stated: two samples whose charge and discharge phases need
`(2, 1)` and `(1, 1)` loop iterations; with threshold 5 every phase (and even every
sample) needs fewer than 5 iterations, yet `check(2)` returns `-1`.  With a single
sample of `(2, 1)` iterations and threshold 3 each phase needs fewer than 3
iterations and `check(1)` returns `-1`. -/
theorem threshold_per_phase_counterexample :
    PinNeeds (construct simHAL 2 3 (simHw 0 0 0)).1
      (simLevels 8 [false, false, true, true, false, false, true, true, false])
      [(2, 1), (1, 1)] ∧
    (∀ p ∈ [((2 : Nat), (1 : Nat)), (1, 1)], p.1 < 5 ∧ p.2 < 5) ∧
    (check (construct simHAL 2 3 (simHw 0 0 0)).1 5
      (simLevels 8 [false, false, true, true, false, false, true, true, false]) 2).2.2 = -1 ∧
    PinNeeds (construct simHAL 2 3 (simHw 0 0 0)).1
      (simLevels 8 [false, false, true, true, false]) [(2, 1)] ∧
    (∀ p ∈ [((2 : Nat), (1 : Nat))], p.1 < 3 ∧ p.2 < 3) ∧
    (check (construct simHAL 2 3 (simHw 0 0 0)).1 3
      (simLevels 8 [false, false, true, true, false]) 1).2.2 = -1 := by
  refine ⟨?_, by decide, by decide, ?_, by decide, by decide⟩
  · simp only [PinNeeds, Transitions]
    decide
  · simp only [PinNeeds, Transitions]
    decide

/-- C12 (amended). The timeout threshold `T` (an `unsigned long`) is a limit on the
accumulated total of the whole call: for every sample count `n >= 1` and every pin
behaviour in which the charge and discharge phases of the `n` samples need
`(c_1, d_1) .. (c_n, d_n)` loop iterations, `check(n)` does not time out (it returns a
value `>= 0`, not `-1`) when the sum of all `c_j + d_j` is below `T` (and at most
`LONG_MAX`), and it returns `-1` when that sum is `T` or more. -/
theorem threshold_limits_accumulated_total (s : Sensor) (T : Nat) (hT : T < 2 ^ 32)
    (hw : Hw) (cds : List (Nat × Nat)) (hne : cds ≠ []) (hp : PinNeeds s hw cds) :
    (sumCounts cds < T → sumCounts cds ≤ LONG_MAX →
      (check s T hw cds.length).2.2 ≠ -1 ∧ 0 ≤ (check s T hw cds.length).2.2) ∧
    (T ≤ sumCounts cds → (check s T hw cds.length).2.2 = -1) := by
  have hn : cds.length ≠ 0 := fun h => hne (List.length_eq_zero.mp h)
  constructor
  · intro hlt hmax
    have hs := sampleLoop_of_pinNeeds s T hT cds hw 0 hp (by omega)
    rw [Nat.zero_add] at hs
    rw [check_of_success s T hw cds.length (sumCounts cds) hn hs]
    have hle : (if sumCounts cds < s._leastCheckedTime then sumCounts cds
        else s._leastCheckedTime) ≤ sumCounts cds := by
      split_ifs <;> omega
    show toLong _ ≠ -1 ∧ 0 ≤ toLong _
    rw [toLong_sub (sumCounts cds) _ hmax hle]
    constructor <;> omega
  · intro hle
    have hs := sampleLoop_timeout_of_pinNeeds s T hT cds hw 0 hne hp (by omega)
    rw [check_of_timeout s T hw cds.length hn hs]

/-- Witness for C12 (amended): the two samples of the counterexample; threshold 6 is
above the sum 5, threshold 5 is not. -/
theorem threshold_limits_accumulated_total_witness :
    ((check (construct simHAL 2 3 (simHw 0 0 0)).1 6
        (simLevels 8 [false, false, true, true, false, false, true, true, false])
        [((2 : Nat), (1 : Nat)), (1, 1)].length).2.2 ≠ -1 ∧
      0 ≤ (check (construct simHAL 2 3 (simHw 0 0 0)).1 6
        (simLevels 8 [false, false, true, true, false, false, true, true, false])
        [((2 : Nat), (1 : Nat)), (1, 1)].length).2.2) ∧
    (check (construct simHAL 2 3 (simHw 0 0 0)).1 5
      (simLevels 8 [false, false, true, true, false, false, true, true, false])
      [((2 : Nat), (1 : Nat)), (1, 1)].length).2.2 = -1 :=
  ⟨(threshold_limits_accumulated_total (construct simHAL 2 3 (simHw 0 0 0)).1 6 (by decide)
      (simLevels 8 [false, false, true, true, false, false, true, true, false])
      [(2, 1), (1, 1)] (by simp) (by simp only [PinNeeds, Transitions]; decide)).1
      (by decide) (by decide),
    (threshold_limits_accumulated_total (construct simHAL 2 3 (simHw 0 0 0)).1 5 (by decide)
      (simLevels 8 [false, false, true, true, false, false, true, true, false])
      [(2, 1), (1, 1)] (by simp) (by simp only [PinNeeds, Transitions]; decide)).2
      (by decide)⟩

theorem lor_land_self (x m : Nat) : (x ||| m) &&& m = m := by
  apply Nat.eq_of_testBit_eq
  intro i
  rw [Nat.testBit_land, Nat.testBit_lor]
  cases x.testBit i <;> cases m.testBit i <;> rfl

theorem chargeSetup_send_high (s : Sensor) (hw : Hw) :
    (chargeSetup s hw).odsr s._sendOutRegister &&& s._sendBitmask = s._sendBitmask := by
  simp only [chargeSetup, interrupts, regSet, Function.update_same]
  exact lor_land_self _ _

theorem sampleLoop_fails_state (s : Sensor) (T : Nat) (hT : T < 2 ^ 32) (hw : Hw) (n j : Nat)
    (hj : j < n) (hwj : Hw) (tj : Nat) (hpre : sampleLoop s T j hw 0 = (hwj, some tj))
    (hfail : FailsToTransition s T hwj tj) :
    sampleLoop s T n hw 0 = ((senseSample s T hwj tj).1, none) := by
  obtain ⟨m, rfl⟩ : ∃ m, n = j + (m + 1) := ⟨n - j - 1, by omega⟩
  rw [sampleLoop_add, hpre]
  show sampleLoop s T (m + 1) hwj tj = _
  rw [sampleLoop]
  have := (senseSample_timeout_iff s T hT hwj tj).mpr hfail
  simp only [this]
  rfl

/-- Hardware interaction after a timeout (the part of C13 that holds for every
sensor).  If sample `j + 1` (reached after `j` completed samples) times out, the
hardware state in which `check` returns is the state in which that `senseSample` call
returned, so no later sample is started.  If the timeout is detected after the
charge-wait loop, that state is the one the first set-up block left, followed only by
the reads of the input register done by the charge loop: no further register write,
pin-mode change or interrupt-mask change is recorded, the output registers are as the
set-up block left them, and the bits of the send output register selected by the
stored send bitmask are set. -/
theorem timeout_stops_hardware_interaction (s : Sensor) (T : Nat) (hT : T < 2 ^ 32)
    (hw : Hw) (n j : Nat) (hj : j < n) (hwj : Hw) (tj : Nat)
    (hpre : sampleLoop s T j hw 0 = (hwj, some tj)) :
    (FailsToTransition s T hwj tj →
      (check s T hw n).2.1 = (senseSample s T hwj tj).1) ∧
    ((∀ i, i < T - tj → pinHigh s hwj (hwj.reads + i) = false) →
      (check s T hw n).2.1.trace =
          (chargeSetup s hwj).trace ++
            List.replicate (T - tj + 1) (Event.regRead s._receiveInRegister) ∧
        (check s T hw n).2.1.odsr = (chargeSetup s hwj).odsr ∧
        (check s T hw n).2.1.irq = (chargeSetup s hwj).irq ∧
        (check s T hw n).2.1.odsr s._sendOutRegister &&& s._sendBitmask =
          s._sendBitmask) := by
  have key : FailsToTransition s T hwj tj →
      (check s T hw n).2.1 = (senseSample s T hwj tj).1 := by
    intro hfail
    have h := sampleLoop_fails_state s T hT hw n j hj hwj tj hpre hfail
    rw [check_of_timeout s T hw n (by omega) (by rw [h]), h]
  refine ⟨key, ?_⟩
  intro hlow
  rw [key (Or.inl hlow), senseSample_charge_timeout s T hT hwj tj hlow]
  exact ⟨rfl, rfl, rfl, chargeSetup_send_high s hwj⟩

/-- Instance of `timeout_stops_hardware_interaction`: three samples requested with
threshold 10; the first completes with total 3 and the second times out in its charge
loop. -/
theorem timeout_stops_hardware_interaction_witness :
    (check (construct simHAL 2 3 (simHw 0 0 0)).1 10 (simHw 8 2 1) 3).2.1.odsr
        (construct simHAL 2 3 (simHw 0 0 0)).1._sendOutRegister &&&
      (construct simHAL 2 3 (simHw 0 0 0)).1._sendBitmask =
      (construct simHAL 2 3 (simHw 0 0 0)).1._sendBitmask :=
  ((timeout_stops_hardware_interaction (construct simHAL 2 3 (simHw 0 0 0)).1 10 (by decide)
    (simHw 8 2 1) 3 1 (by decide)
    (sampleLoop (construct simHAL 2 3 (simHw 0 0 0)).1 10 1 (simHw 8 2 1) 0).1 3 rfl).2
    (by decide)).2.2.2

/-- C13 (the code at the failing input). Send pin 40 of the simulated board has the
mask `2 ^ 8` in the output register at address 64; the stored `uint8_t` mask is 0.
With threshold 5 and a receive pin that stays LOW, `check(1)` times out in the charge
loop and returns `-1`; the only values written to register 64 are 0, and the send
pin's output bit is LOW, not HIGH, when the call returns. -/
theorem send_pin_low_after_charge_timeout :
    simHAL.digitalPinToBitMask 40 = 2 ^ 8 ∧
    simHAL.portOutputRegister (simHAL.digitalPinToPort 40) = 64 ∧
    (construct simHAL 40 3 (simHw 0 0 0)).1._sendBitmask = 0 ∧
    (check (construct simHAL 40 3 (simHw 0 0 0)).1 5 (simHw 8 9 0) 1).2.2 = -1 ∧
    (check (construct simHAL 40 3 (simHw 0 0 0)).1 5 (simHw 8 9 0) 1).2.1.trace =
      [Event.noInterrupts, Event.regRead 64, Event.regWrite 64 0,
        Event.pinMode 3 PinMode.INPUT, Event.regRead 0, Event.regWrite 0 0,
        Event.pinMode 3 PinMode.OUTPUT, Event.pinMode 3 PinMode.INPUT,
        Event.regRead 64, Event.regWrite 64 0, Event.interrupts,
        Event.regRead 4, Event.regRead 4, Event.regRead 4, Event.regRead 4,
        Event.regRead 4, Event.regRead 4] ∧
    (check (construct simHAL 40 3 (simHw 0 0 0)).1 5 (simHw 8 9 0) 1).2.1.odsr 64 &&&
      2 ^ 8 = 0 :=
  ⟨by decide, by decide, by decide, by decide, by decide, by decide⟩

theorem senseSample_bounds (s : Sensor) (T : Nat) (hT : T < 2 ^ 32) (hw : Hw) (total : Nat)
    (h : total ≤ T) :
    total ≤ (senseSample s T hw total).2.1 ∧ (senseSample s T hw total).2.1 ≤ T ∧
      (senseSample s T hw total).1.reads + total ≤
        hw.reads + (senseSample s T hw total).2.1 + 2 := by
  obtain ⟨c, hc, _, _, hres⟩ := waitLoop_spec s T false hT (chargeSetup s hw) total
  have e1 : waitLoop s T false (chargeSetup s hw) total =
      (advance s (chargeSetup s hw) (c + 1), total + c) := hres _ (by omega)
  obtain ⟨d, hd, _, _, hres2⟩ := waitLoop_spec s T true hT
    (dischargeSetup s (advance s (chargeSetup s hw) (c + 1))) (total + c)
  have e2 : waitLoop s T true (dischargeSetup s (advance s (chargeSetup s hw) (c + 1)))
      (total + c) =
      (advance s (dischargeSetup s (advance s (chargeSetup s hw) (c + 1))) (d + 1),
        total + c + d) := hres2 _ (by omega)
  have r1 : (advance s (chargeSetup s hw) (c + 1)).reads = hw.reads + (c + 1) := rfl
  have r2 : (advance s (dischargeSetup s (advance s (chargeSetup s hw) (c + 1)))
      (d + 1)).reads = hw.reads + (c + 1) + (d + 1) := rfl
  simp only [senseSample, e1, e2]
  split_ifs
  · simp only [r1]; omega
  · simp only [r2]; omega
  · simp only [r2]; omega

theorem finalTotal_bounds (s : Sensor) (T : Nat) (hT : T < 2 ^ 32) :
    ∀ (n : Nat) (hw : Hw) (total : Nat), total ≤ T →
      total ≤ finalTotal s T n hw total ∧ finalTotal s T n hw total ≤ T ∧
        (sampleLoop s T n hw total).1.reads + total ≤
          hw.reads + finalTotal s T n hw total + 2 * n := by
  intro n
  induction n with
  | zero =>
    intro hw total h
    simp only [finalTotal, sampleLoop]
    omega
  | succ n ih =>
    intro hw total h
    obtain ⟨b1, b2, b3⟩ := senseSample_bounds s T hT hw total h
    rw [finalTotal, sampleLoop]
    by_cases hneg : (senseSample s T hw total).2.2 < 0
    · simp only [hneg, if_true]
      omega
    · simp only [hneg, if_false]
      obtain ⟨i1, i2, i3⟩ := ih (senseSample s T hw total).1 (senseSample s T hw total).2.1 b2
      omega

theorem check_hw (s : Sensor) (T : Nat) (hw : Hw) (n : Nat) (hn : n ≠ 0) :
    (check s T hw n).2.1 = (sampleLoop s T n hw 0).1 := by
  rcases hsl : (sampleLoop s T n hw 0).2 with _ | r
  · rw [check_of_timeout s T hw n hn hsl]
  · rw [check_of_success s T hw n r hn hsl]

/-- C14. For every threshold `T` with `0 <= T <= LONG_MAX`, every sample count `n` and
every behaviour of the receive pin (every hardware state): each wait loop leaves
through its own loop condition after a number `c` of iterations that is at most `T`
minus the accumulator's value at loop entry (the bound on the recursion is not what
ends it); the accumulator, which counts the increments of the whole call from 0, is
at most `T` when `check(n)` leaves its `for` loop; and the whole call evaluates the
loop conditions at most `T + 2 * n` times, so `check(n)` terminates. -/
theorem check_terminates_within_threshold (s : Sensor) (T : Nat) (hT : T ≤ LONG_MAX) :
    (∀ (level : Bool) (hw : Hw) (total : Nat),
      ∃ c, c ≤ T - total ∧
        (∀ i, i < c → pinHigh s hw (hw.reads + i) = level ∧ total + i < T) ∧
        (pinHigh s hw (hw.reads + c) ≠ level ∨ T ≤ total + c) ∧
        (∀ fuel, c < fuel →
          waitLoopAux s T level fuel hw total = (advance s hw (c + 1), total + c)) ∧
        waitLoop s T level hw total = (advance s hw (c + 1), total + c)) ∧
    (∀ (hw : Hw) (n : Nat),
      finalTotal s T n hw 0 ≤ T ∧
        (check s T hw n).2.1.reads ≤ hw.reads + finalTotal s T n hw 0 + 2 * n ∧
        (check s T hw n).2.1.reads ≤ hw.reads + T + 2 * n) := by
  have hT2 : T < 2 ^ 32 := by unfold LONG_MAX at hT; omega
  constructor
  · intro level hw total
    obtain ⟨c, hc, hrun, hexit, hres⟩ := waitLoop_spec s T level hT2 hw total
    exact ⟨c, hc, hrun, hexit, hres, hres _ (by omega)⟩
  · intro hw n
    obtain ⟨_, b2, b3⟩ := finalTotal_bounds s T hT2 n hw 0 (Nat.zero_le T)
    by_cases hn : n = 0
    · subst hn
      refine ⟨b2, ?_, ?_⟩
      · show hw.reads ≤ _
        omega
      · show hw.reads ≤ _
        omega
    · rw [check_hw s T hw n hn]
      omega

/-- Witness for C14: threshold 10, three samples, a pin that stays LOW after the
first sample. -/
theorem check_terminates_within_threshold_witness :
    finalTotal (construct simHAL 2 3 (simHw 0 0 0)).1 10 3 (simHw 8 2 1) 0 ≤ 10 ∧
      (check (construct simHAL 2 3 (simHw 0 0 0)).1 10 (simHw 8 2 1) 3).2.1.reads ≤
        (simHw 8 2 1).reads + finalTotal (construct simHAL 2 3 (simHw 0 0 0)).1 10 3
          (simHw 8 2 1) 0 + 2 * 3 ∧
      (check (construct simHAL 2 3 (simHw 0 0 0)).1 10 (simHw 8 2 1) 3).2.1.reads ≤
        (simHw 8 2 1).reads + 10 + 2 * 3 :=
  (check_terminates_within_threshold (construct simHAL 2 3 (simHw 0 0 0)).1 10
    (by decide)).2 (simHw 8 2 1) 3

theorem waitLoop_le (s : Sensor) (T : Nat) (hT : T < 2 ^ 32) (level : Bool) (hw : Hw)
    (total : Nat) (h : total ≤ T) :
    total ≤ (waitLoop s T level hw total).2 ∧ (waitLoop s T level hw total).2 ≤ T := by
  obtain ⟨c, hc, _, _, hres⟩ := waitLoop_spec s T level hT hw total
  have e : waitLoop s T level hw total = (advance s hw (c + 1), total + c) :=
    hres _ (by omega)
  rw [e]
  constructor
  · show total ≤ total + c
    omega
  · show total + c ≤ T
    omega

theorem senseSample_timeout_iff_eq (s : Sensor) (T : Nat) (hT : T < 2 ^ 32) (hw : Hw)
    (total : Nat) (h : total ≤ T) :
    (senseSample s T hw total).2.2 = -1 ↔
      ((waitLoop s T false (chargeSetup s hw) total).2 = T ∨
        (waitLoop s T true
          (dischargeSetup s (waitLoop s T false (chargeSetup s hw) total).1)
          (waitLoop s T false (chargeSetup s hw) total).2).2 = T) := by
  obtain ⟨a1, a2⟩ := waitLoop_le s T hT false (chargeSetup s hw) total h
  obtain ⟨b1, b2⟩ := waitLoop_le s T hT true
    (dischargeSetup s (waitLoop s T false (chargeSetup s hw) total).1)
    (waitLoop s T false (chargeSetup s hw) total).2 a2
  simp only [senseSample]
  split_ifs with h1 h2
  · exact ⟨fun _ => Or.inl (by omega), fun _ => rfl⟩
  · exact ⟨fun _ => Or.inr (by omega), fun _ => rfl⟩
  · constructor
    · intro hc
      exact absurd hc (by decide)
    · intro hc
      rcases hc with hc | hc <;> omega

/-- C15. For every threshold `T <= LONG_MAX` held fixed during a `check` call: the
accumulator never exceeds `T` (at the start of a sample, after its charge loop and
after its discharge loop); `senseSample` signals timeout exactly when the accumulator
equals `T` after one of its wait loops; every successful `check` has a raw total, and
a return value, strictly less than `T`; and a pin transition that is first observed
on the very iteration at which the accumulator reaches `T`, in the charge or in the
discharge loop, is reported as a timeout (`-1`). -/
theorem accumulator_never_exceeds_threshold (s : Sensor) (T : Nat) (hT : T ≤ LONG_MAX)
    (hw : Hw) :
    (∀ (j : Nat) (hwj : Hw) (tj : Nat), sampleLoop s T j hw 0 = (hwj, some tj) →
      (tj ≤ T ∧
        (waitLoop s T false (chargeSetup s hwj) tj).2 ≤ T ∧
        (waitLoop s T true
          (dischargeSetup s (waitLoop s T false (chargeSetup s hwj) tj).1)
          (waitLoop s T false (chargeSetup s hwj) tj).2).2 ≤ T) ∧
      ((senseSample s T hwj tj).2.2 = -1 ↔
        ((waitLoop s T false (chargeSetup s hwj) tj).2 = T ∨
          (waitLoop s T true
            (dischargeSetup s (waitLoop s T false (chargeSetup s hwj) tj).1)
            (waitLoop s T false (chargeSetup s hwj) tj).2).2 = T)) ∧
      (∀ c, (∀ i, i < c → pinHigh s hwj (hwj.reads + i) = false) →
        pinHigh s hwj (hwj.reads + c) = true → tj + c = T →
        (senseSample s T hwj tj).2.2 = -1) ∧
      (∀ c d, Transitions s hwj c d → tj + c + d = T →
        (senseSample s T hwj tj).2.2 = -1)) ∧
    (∀ (n r : Nat), n ≠ 0 → rawTotal s ⟨T, hw, n⟩ = some r →
      r < T ∧ 0 ≤ (check s T hw n).2.2 ∧ (check s T hw n).2.2 < (T : Int)) := by
  have hT2 : T < 2 ^ 32 := by unfold LONG_MAX at hT; omega
  constructor
  · intro j hwj tj hpre
    have htj : tj ≤ T := by
      obtain ⟨cds, hlen, _, hsum, hlt⟩ :=
        sampleLoop_success_inv s T hT2 j hw 0 tj (by rw [hpre])
      by_cases hj : j = 0
      · subst hj
        have hnil : cds = [] := List.length_eq_zero.mp hlen
        subst hnil
        simp [sumCounts] at hsum
        omega
      · exact Nat.le_of_lt (hlt hj)
    obtain ⟨_, a2⟩ := waitLoop_le s T hT2 false (chargeSetup s hwj) tj htj
    obtain ⟨_, b2⟩ := waitLoop_le s T hT2 true
      (dischargeSetup s (waitLoop s T false (chargeSetup s hwj) tj).1)
      (waitLoop s T false (chargeSetup s hwj) tj).2 a2
    refine ⟨⟨htj, a2, b2⟩, senseSample_timeout_iff_eq s T hT2 hwj tj htj, ?_, ?_⟩
    · intro c hlow _ hc
      apply (senseSample_timeout_iff s T hT2 hwj tj).mpr
      left
      intro i hi
      exact hlow i (by omega)
    · intro c d htr hcd
      exact (senseSample_timeout_iff s T hT2 hwj tj).mpr
        (fails_of_total_le s hwj c d T tj htr (by omega))
  · intro n r hn hr
    obtain ⟨_, _, _, _, hlt⟩ := sampleLoop_success_inv s T hT2 n hw 0 r hr
    have hrT := hlt hn
    have hle : (if r < s._leastCheckedTime then r else s._leastCheckedTime) ≤ r := by
      split_ifs <;> omega
    rw [check_of_success s T hw n r hn hr]
    show r < T ∧ 0 ≤ toLong _ ∧ toLong _ < (T : Int)
    rw [toLong_sub r _ (by omega) hle]
    refine ⟨hrT, ?_, ?_⟩ <;> omega

/-- Witness for C15: threshold 3 and a pin that reads HIGH after 2 charge iterations
and LOW after 1 discharge iteration, exactly when the accumulator reaches 3. -/
theorem accumulator_never_exceeds_threshold_witness :
    (senseSample (construct simHAL 2 3 (simHw 0 0 0)).1 3 (simHw 8 2 1) 0).2.2 = -1 :=
  ((accumulator_never_exceeds_threshold (construct simHAL 2 3 (simHw 0 0 0)).1 3 (by decide)
    (simHw 8 2 1)).1 0 (simHw 8 2 1) 0 rfl).2.2.2 2 1 (by unfold Transitions; decide) rfl

theorem irqOk_spec (p : Event × Bool) (h : irqOk p = true) :
    (p.1 = Event.noInterrupts → p.2 = true) ∧ (p.1 = Event.interrupts → p.2 = false) ∧
      (∀ a v, p.1 = Event.regWrite a v → p.2 = false) ∧
      (∀ pin m, p.1 = Event.pinMode pin m → p.2 = false) := by
  obtain ⟨e, f⟩ := p
  cases e <;> cases f <;> simp_all [irqOk]

theorem all_irqOk_reads (a : Nat) (k : Nat) :
    ((List.replicate k (Event.regRead a)).map (fun e => (e, true))).all irqOk = true := by
  simp [List.all_eq_true, irqOk]

theorem irqReplay_segment (xs ys : List Event) (a k : Nat) (h : irqAfter true xs = true) :
    irqReplay true (xs ++ List.replicate k (Event.regRead a) ++ ys) =
      irqReplay true xs ++ (List.replicate k (Event.regRead a)).map (fun e => (e, true)) ++
        irqReplay true ys := by
  rw [irqReplay_append, irqReplay_append, irqAfter_append, h, irqAfter_reads, irqReplay_reads]

theorem irqAfter_segment (xs ys : List Event) (a k : Nat) (h : irqAfter true xs = true) :
    irqAfter true (xs ++ List.replicate k (Event.regRead a) ++ ys) = irqAfter true ys := by
  rw [irqAfter_append, irqAfter_append, h, irqAfter_reads]

theorem all_irqOk_segment (xs ys : List Event) (a k : Nat) (h : irqAfter true xs = true)
    (hx : (irqReplay true xs).all irqOk = true) (hy : (irqReplay true ys).all irqOk = true) :
    (irqReplay true (xs ++ List.replicate k (Event.regRead a) ++ ys)).all irqOk = true := by
  rw [irqReplay_segment xs ys a k h, List.all_append, List.all_append, hx, hy,
    all_irqOk_reads]
  rfl

theorem chargeSetup_events (s : Sensor) (hw : Hw) :
    ∃ pre, (chargeSetup s hw).trace = hw.trace ++ pre ∧
      pre.head? = some Event.noInterrupts ∧ irqAfter true pre = true ∧
      (irqReplay true pre).all irqOk = true := by
  obtain ⟨v1, v2, v3, h⟩ := chargeSetup_trace s hw
  exact ⟨_, h, rfl, rfl, rfl⟩

theorem dischargeSetup_events (s : Sensor) (hw : Hw) :
    ∃ post, (dischargeSetup s hw).trace = hw.trace ++ post ∧
      irqAfter true post = true ∧ (irqReplay true post).all irqOk = true := by
  obtain ⟨v1, v2, v3, h⟩ := dischargeSetup_trace s hw
  exact ⟨_, h, rfl, rfl⟩

/-- C16. In every execution of `senseSample` that starts with interrupts enabled, the
recorded interactions are: the first set-up block `pre`, the reads `reads1` of the
charge loop, and then either nothing more (charge timeout) or the second set-up block
`post` and the reads `reads2` of the discharge loop.  Replaying the interrupt flag
along them: the first event is `noInterrupts`; every `noInterrupts` happens with
interrupts enabled and every `interrupts` with interrupts disabled (strict
alternation); every register write and pin-mode change happens with interrupts
disabled; every read of a wait loop happens with interrupts enabled; and interrupts
are enabled at the end.  On every return path the interrupt flag is set; `check`
called with interrupts enabled returns with interrupts enabled for every sample
count, and `check` with a sample count of at least 1 returns with interrupts enabled
whatever the flag was at the call. -/
theorem interrupts_discipline (s : Sensor) (T : Nat) (hw : Hw) (total : Nat)
    (hirq : hw.irq = true) :
    ∃ pre reads1 post reads2 : List Event,
      (senseSample s T hw total).1.trace = hw.trace ++ (pre ++ reads1 ++ (post ++ reads2)) ∧
      (chargeSetup s hw).trace = hw.trace ++ pre ∧
      (∃ k, reads1 = List.replicate (k + 1) (Event.regRead s._receiveInRegister)) ∧
      ((post = [] ∧ reads2 = []) ∨
        ((∃ hw1, (dischargeSetup s hw1).trace = hw1.trace ++ post) ∧
          ∃ k, reads2 = List.replicate (k + 1) (Event.regRead s._receiveInRegister))) ∧
      pre.head? = some Event.noInterrupts ∧
      irqReplay true (pre ++ reads1 ++ (post ++ reads2)) =
        irqReplay true pre ++ reads1.map (fun e => (e, true)) ++
          (irqReplay true post ++ reads2.map (fun e => (e, true))) ∧
      (∀ p ∈ irqReplay true (pre ++ reads1 ++ (post ++ reads2)),
        (p.1 = Event.noInterrupts → p.2 = true) ∧ (p.1 = Event.interrupts → p.2 = false) ∧
        (∀ a v, p.1 = Event.regWrite a v → p.2 = false) ∧
        (∀ pin m, p.1 = Event.pinMode pin m → p.2 = false)) ∧
      irqAfter true (pre ++ reads1 ++ (post ++ reads2)) = true ∧
      (senseSample s T hw total).1.irq = true ∧
      (∀ n, (check s T hw n).2.1.irq = true) ∧
      (∀ (hw1 : Hw) (n : Nat), n ≠ 0 → (check s T hw1 n).2.1.irq = true) := by
  obtain ⟨pre, hpre, hhead, hpreA, hpreOk⟩ := chargeSetup_events s hw
  obtain ⟨k1, hk1⟩ := waitLoop_advance s T false (chargeSetup s hw) total
  obtain ⟨post, hpost, hpostA, hpostOk⟩ :=
    dischargeSetup_events s (advance s (chargeSetup s hw) (k1 + 1))
  obtain ⟨k2, hk2⟩ := waitLoop_advance s T true
    (dischargeSetup s (advance s (chargeSetup s hw) (k1 + 1)))
    (waitLoop s T false (chargeSetup s hw) total).2
  have hcheck : ∀ n, (check s T hw n).2.1.irq = true := by
    intro n
    by_cases hn : n = 0
    · subst hn; exact hirq
    · rw [check_hw s T hw n hn]
      exact sampleLoop_irq s T n hw 0 (Or.inl hn)
  have hcheck2 : ∀ (hw1 : Hw) (n : Nat), n ≠ 0 → (check s T hw1 n).2.1.irq = true := by
    intro hw1 n hn
    rw [check_hw s T hw1 n hn]
    exact sampleLoop_irq s T n hw1 0 (Or.inl hn)
  by_cases hto : T ≤ (waitLoop s T false (chargeSetup s hw) total).2
  · refine ⟨pre, List.replicate (k1 + 1) (Event.regRead s._receiveInRegister), [], [],
      ?_, hpre, ⟨k1, rfl⟩, Or.inl ⟨rfl, rfl⟩, hhead, ?_, ?_, ?_,
      senseSample_irq s T hw total, hcheck, hcheck2⟩
    · have hfin : (senseSample s T hw total).1 = advance s (chargeSetup s hw) (k1 + 1) := by
        simp only [senseSample]
        rw [if_pos hto]
        exact hk1
      rw [hfin]
      show (chargeSetup s hw).trace ++ _ = _
      rw [hpre]
      simp
    · have := irqReplay_segment pre [] s._receiveInRegister (k1 + 1) hpreA
      simpa [irqReplay] using this
    · intro p hp
      apply irqOk_spec
      have hall := all_irqOk_segment pre [] s._receiveInRegister (k1 + 1) hpreA hpreOk rfl
      exact List.all_eq_true.mp hall p (by simpa using hp)
    · have := irqAfter_segment pre [] s._receiveInRegister (k1 + 1) hpreA
      simpa [irqAfter] using this
  · have hseg2 := irqReplay_segment post [] s._receiveInRegister (k2 + 1) hpostA
    have hall2 := all_irqOk_segment post [] s._receiveInRegister (k2 + 1) hpostA hpostOk rfl
    have haft2 := irqAfter_segment post [] s._receiveInRegister (k2 + 1) hpostA
    rw [List.append_nil] at hseg2 hall2 haft2
    refine ⟨pre, List.replicate (k1 + 1) (Event.regRead s._receiveInRegister), post,
      List.replicate (k2 + 1) (Event.regRead s._receiveInRegister),
      ?_, hpre, ⟨k1, rfl⟩, Or.inr ⟨⟨_, hpost⟩, ⟨k2, rfl⟩⟩, hhead, ?_, ?_, ?_,
      senseSample_irq s T hw total, hcheck, hcheck2⟩
    · have hfin : (senseSample s T hw total).1 =
          advance s (dischargeSetup s (advance s (chargeSetup s hw) (k1 + 1))) (k2 + 1) := by
        simp only [senseSample]
        rw [if_neg hto]
        rw [hk1]
        split_ifs <;> exact hk2
      rw [hfin]
      show (dischargeSetup s (advance s (chargeSetup s hw) (k1 + 1))).trace ++ _ = _
      rw [hpost]
      show ((chargeSetup s hw).trace ++ _) ++ _ ++ _ = _
      rw [hpre]
      simp
    · rw [irqReplay_segment pre _ s._receiveInRegister (k1 + 1) hpreA, hseg2]
      simp [irqReplay]
    · intro p hp
      apply irqOk_spec
      have hall := all_irqOk_segment pre
        (post ++ List.replicate (k2 + 1) (Event.regRead s._receiveInRegister))
        s._receiveInRegister (k1 + 1) hpreA hpreOk hall2
      exact List.all_eq_true.mp hall p hp
    · rw [irqAfter_segment pre _ s._receiveInRegister (k1 + 1) hpreA]
      simpa [irqAfter] using haft2

/-- Witness for C16: a sample and a single-sample call on the simulated board, which
starts with interrupts enabled. -/
theorem interrupts_discipline_witness :
    (senseSample (construct simHAL 2 3 (simHw 0 0 0)).1 10 (simHw 8 2 1) 0).1.irq = true ∧
      (check (construct simHAL 2 3 (simHw 0 0 0)).1 10 (simHw 8 2 1) 1).2.1.irq = true := by
  obtain ⟨_, _, _, _, h⟩ :=
    interrupts_discipline (construct simHAL 2 3 (simHw 0 0 0)).1 10 (simHw 8 2 1) 0 rfl
  exact ⟨h.2.2.2.2.2.2.2.2.1, h.2.2.2.2.2.2.2.2.2.1 1⟩

theorem chargeSetup_frame (s : Sensor) (hw0 hw : Hw) (hsm : s._sendBitmask < 2 ^ 32)
    (hrm : s._receiveBitmask < 2 ^ 32) (h32 : ∀ a, hw.odsr a < 2 ^ 32)
    (hf : ChangesOnlyMaskBits s hw0 hw) :
    ChangesOnlyMaskBits s hw0 (chargeSetup s hw) ∧ ∀ a, (chargeSetup s hw).odsr a < 2 ^ 32 := by
  have a1 := frame_regClear s hw0 (noInterrupts hw) s._sendOutRegister s._sendBitmask
    (Or.inl ⟨rfl, rfl⟩) hsm h32 hf
  have a2 := frame_regClear s hw0
    (pinMode (regClear (noInterrupts hw) s._sendOutRegister s._sendBitmask) s._receivePin
      PinMode.INPUT)
    s._receiveOutRegister s._receiveBitmask (Or.inr ⟨rfl, rfl⟩) hrm a1.2 a1.1
  exact frame_regSet s hw0 _ s._sendOutRegister s._sendBitmask (Or.inl ⟨rfl, rfl⟩) hsm
    a2.2 a2.1

theorem dischargeSetup_frame (s : Sensor) (hw0 hw : Hw) (hsm : s._sendBitmask < 2 ^ 32)
    (hrm : s._receiveBitmask < 2 ^ 32) (h32 : ∀ a, hw.odsr a < 2 ^ 32)
    (hf : ChangesOnlyMaskBits s hw0 hw) :
    (ChangesOnlyMaskBits s hw0 (dischargeSetup s hw) ∧
      ∀ a, (dischargeSetup s hw).odsr a < 2 ^ 32) ∧
    (dischargeSetup s hw).odsr s._sendOutRegister &&& s._sendBitmask = 0 ∧
    (dischargeSetup s hw).odsr s._receiveOutRegister &&& s._receiveBitmask = 0 := by
  have a1 := frame_regSet s hw0 (noInterrupts hw) s._receiveOutRegister s._receiveBitmask
    (Or.inr ⟨rfl, rfl⟩) hrm h32 hf
  have a2 := frame_regClear s hw0
    (pinMode (pinMode (regSet (noInterrupts hw) s._receiveOutRegister s._receiveBitmask)
      s._receivePin PinMode.OUTPUT) s._receivePin PinMode.INPUT)
    s._receiveOutRegister s._receiveBitmask (Or.inr ⟨rfl, rfl⟩) hrm a1.2 a1.1
  have a3 := frame_regClear s hw0
    (regClear (pinMode (pinMode (regSet (noInterrupts hw) s._receiveOutRegister
      s._receiveBitmask) s._receivePin PinMode.OUTPUT) s._receivePin PinMode.INPUT)
      s._receiveOutRegister s._receiveBitmask)
    s._sendOutRegister s._sendBitmask (Or.inl ⟨rfl, rfl⟩) hsm a2.2 a2.1
  have hso : ∀ (h : Hw) (reg m : Nat), (regClear h reg m).odsr reg =
      h.odsr reg &&& (2 ^ 32 - 1 - m) := fun h reg m => by simp [regClear]
  have hne : ∀ (h : Hw) (reg m a : Nat), a ≠ reg → (regClear h reg m).odsr a = h.odsr a :=
    fun h reg m a ha => by simp [regClear, Function.update_noteq ha]
  have hy : (regClear (pinMode (pinMode (regSet (noInterrupts hw) s._receiveOutRegister
      s._receiveBitmask) s._receivePin PinMode.OUTPUT) s._receivePin PinMode.INPUT)
      s._receiveOutRegister s._receiveBitmask).odsr s._receiveOutRegister &&&
      s._receiveBitmask = 0 := by
    rw [hso]
    exact clear_land_self _ _ (a1.2 _) hrm
  have e : (dischargeSetup s hw).odsr =
      (regClear (regClear (pinMode (pinMode (regSet (noInterrupts hw) s._receiveOutRegister
        s._receiveBitmask) s._receivePin PinMode.OUTPUT) s._receivePin PinMode.INPUT)
        s._receiveOutRegister s._receiveBitmask) s._sendOutRegister s._sendBitmask).odsr :=
    rfl
  refine ⟨a3, ?_, ?_⟩
  · rw [e, hso]
    exact clear_land_self _ _ (a2.2 _) hsm
  · rw [e]
    by_cases hreg : s._receiveOutRegister = s._sendOutRegister
    · have hso2 : ∀ (h : Hw) (reg m a : Nat), a = reg → (regClear h reg m).odsr a =
          h.odsr a &&& (2 ^ 32 - 1 - m) := fun h reg m a ha => by subst ha; simp [regClear]
      rw [hso2 _ _ _ _ hreg]
      exact land_clear_other _ _ _ (a2.2 _) hsm hy
    · rw [hne _ _ _ _ hreg]
      exact hy

theorem waitLoop_odsr (s : Sensor) (T : Nat) (level : Bool) (hw : Hw) (total : Nat) :
    (waitLoop s T level hw total).1.odsr = hw.odsr := by
  obtain ⟨k, hk⟩ := waitLoop_advance s T level hw total
  rw [hk]
  rfl

/-- C17. For every initial content of the 32-bit output registers and every stored
8-bit bitmask pair: each form of direct register write used by `senseSample`
(`&= ~mask` and `|= mask` on the send and on the receive output register) changes
only bits selected by that register's bitmask; over the whole of `senseSample`, on
every return path, the output registers change only in the bits selected by the send
bitmask (send output register) and by the receive bitmask (receive output register),
so bits 8..31 of every register and all other registers are unchanged; after a
successful sample the send bits and the receive output bits are 0. -/
theorem register_writes_touch_only_mask_bits (s : Sensor) (T : Nat) (hw : Hw) (total : Nat)
    (h32 : ∀ a, hw.odsr a < 2 ^ 32) (hsm : s._sendBitmask < 2 ^ 8)
    (hrm : s._receiveBitmask < 2 ^ 8) :
    (ChangesOnlyMaskBits s hw (regClear hw s._sendOutRegister s._sendBitmask) ∧
      ChangesOnlyMaskBits s hw (regSet hw s._sendOutRegister s._sendBitmask) ∧
      ChangesOnlyMaskBits s hw (regClear hw s._receiveOutRegister s._receiveBitmask) ∧
      ChangesOnlyMaskBits s hw (regSet hw s._receiveOutRegister s._receiveBitmask)) ∧
    ChangesOnlyMaskBits s hw (senseSample s T hw total).1 ∧
    (∀ a i, 8 ≤ i →
      ((senseSample s T hw total).1.odsr a).testBit i = (hw.odsr a).testBit i) ∧
    (∀ a, a ≠ s._sendOutRegister → a ≠ s._receiveOutRegister →
      (senseSample s T hw total).1.odsr a = hw.odsr a) ∧
    ((senseSample s T hw total).2.2 = 1 →
      (senseSample s T hw total).1.odsr s._sendOutRegister &&& s._sendBitmask = 0 ∧
      (senseSample s T hw total).1.odsr s._receiveOutRegister &&& s._receiveBitmask = 0) := by
  have hsm2 : s._sendBitmask < 2 ^ 32 := by omega
  have hrm2 : s._receiveBitmask < 2 ^ 32 := by omega
  have c1 := chargeSetup_frame s hw hw hsm2 hrm2 h32 (frame_refl s hw)
  have c2 : ChangesOnlyMaskBits s hw (waitLoop s T false (chargeSetup s hw) total).1 :=
    frame_of_odsr_eq s hw _ _ (waitLoop_odsr s T false _ total) c1.1
  have c2b : ∀ a, (waitLoop s T false (chargeSetup s hw) total).1.odsr a < 2 ^ 32 := by
    rw [waitLoop_odsr]; exact c1.2
  have d1 := dischargeSetup_frame s hw (waitLoop s T false (chargeSetup s hw) total).1
    hsm2 hrm2 c2b c2
  have hframe : ChangesOnlyMaskBits s hw (senseSample s T hw total).1 := by
    simp only [senseSample]
    split_ifs
    · exact c2
    · exact frame_of_odsr_eq s hw _ _ (waitLoop_odsr s T true _ _) d1.1.1
    · exact frame_of_odsr_eq s hw _ _ (waitLoop_odsr s T true _ _) d1.1.1
  refine ⟨⟨(frame_regClear s hw hw _ _ (Or.inl ⟨rfl, rfl⟩) hsm2 h32 (frame_refl s hw)).1,
    (frame_regSet s hw hw _ _ (Or.inl ⟨rfl, rfl⟩) hsm2 h32 (frame_refl s hw)).1,
    (frame_regClear s hw hw _ _ (Or.inr ⟨rfl, rfl⟩) hrm2 h32 (frame_refl s hw)).1,
    (frame_regSet s hw hw _ _ (Or.inr ⟨rfl, rfl⟩) hrm2 h32 (frame_refl s hw)).1⟩,
    hframe, ?_, ?_, ?_⟩
  · intro a i hi
    by_contra hne
    have hlt : ∀ m, m < 2 ^ 8 → m.testBit i = false := fun m hm =>
      Nat.testBit_lt_two_pow (Nat.lt_of_lt_of_le hm (Nat.pow_le_pow_right (by decide) hi))
    rcases hframe a i hne with ⟨_, hb⟩ | ⟨_, hb⟩
    · rw [hlt _ hsm] at hb; cases hb
    · rw [hlt _ hrm] at hb; cases hb
  · intro a ha1 ha2
    apply Nat.eq_of_testBit_eq
    intro i
    by_contra hne
    rcases hframe a i hne with ⟨h, _⟩ | ⟨h, _⟩
    · exact ha1 h
    · exact ha2 h
  · intro hok
    simp only [senseSample] at hok ⊢
    split_ifs at hok ⊢ with h1 h2
    · cases hok
    · cases hok
    · rw [waitLoop_odsr]
      exact d1.2

/-- Witness for C17: the simulated board with all output registers zero. -/
theorem register_writes_touch_only_mask_bits_witness :
    ChangesOnlyMaskBits (construct simHAL 2 3 (simHw 0 0 0)).1 (simHw 8 2 1)
      (senseSample (construct simHAL 2 3 (simHw 0 0 0)).1 10 (simHw 8 2 1) 0).1 :=
  (register_writes_touch_only_mask_bits (construct simHAL 2 3 (simHw 0 0 0)).1 10
    (simHw 8 2 1) 0 (fun _ => by show (0 : Nat) < 2 ^ 32; decide) (by decide) (by decide)).2.1

theorem two_pow_mod_256 (k : Nat) (hk : 8 ≤ k) : 2 ^ k % 2 ^ 8 = 0 := by
  obtain ⟨j, rfl⟩ : ∃ j, k = 8 + j := ⟨k - 8, by omega⟩
  rw [Nat.pow_add, Nat.mul_mod_right]

theorem fails_of_zero_mask (s : Sensor) (T : Nat) (hw : Hw) (total : Nat)
    (h : s._receiveBitmask = 0) : FailsToTransition s T hw total := by
  left
  intro i _
  simp [pinHigh, h]

/-- C18. The constructor stores each pin's bitmask reduced modulo 256 (the fields are
`uint8_t`).  When the receive pin's mask resolved by the HAL is the single bit at a
position `k >= 8`, the stored receive mask is 0, and then for every stored baseline,
every threshold `T` (an `unsigned long`), every sample count `n >= 1` and every
hardware state, whatever levels the receive pin delivers, `check(n)` returns `-1` and
leaves `_leastCheckedTime` as it was. -/
theorem truncated_receive_mask_times_out (hal : HAL) (sendPin receivePin : Nat) (hw0 : Hw) :
    (construct hal sendPin receivePin hw0).1._sendBitmask =
        hal.digitalPinToBitMask sendPin % 256 ∧
      (construct hal sendPin receivePin hw0).1._receiveBitmask =
        hal.digitalPinToBitMask receivePin % 256 ∧
      ∀ k, 8 ≤ k → hal.digitalPinToBitMask receivePin = 2 ^ k →
        (construct hal sendPin receivePin hw0).1._receiveBitmask = 0 ∧
        ∀ (l T : Nat) (hw : Hw) (n : Nat), T < 2 ^ 32 → n ≠ 0 →
          (check { (construct hal sendPin receivePin hw0).1 with _leastCheckedTime := l }
            T hw n).2.2 = -1 ∧
          (check { (construct hal sendPin receivePin hw0).1 with _leastCheckedTime := l }
            T hw n).1._leastCheckedTime = l := by
  refine ⟨rfl, rfl, ?_⟩
  intro k hk hmask
  have hz : (construct hal sendPin receivePin hw0).1._receiveBitmask = 0 := by
    show hal.digitalPinToBitMask receivePin % 2 ^ 8 = 0
    rw [hmask]
    exact two_pow_mod_256 k hk
  refine ⟨hz, ?_⟩
  intro l T hw n hT hn
  have hf := sampleLoop_fails
    { (construct hal sendPin receivePin hw0).1 with _leastCheckedTime := l } T hT hw n 0
    (by omega) hw 0 rfl (fails_of_zero_mask _ T hw 0 hz)
  rw [check_of_timeout _ T hw n hn hf]
  exact ⟨rfl, rfl⟩

/-- Witness for C18: receive pin 13 of the simulated board has the mask `2 ^ 13`; the
pin does go HIGH after 2 reads and LOW after 1 more, but the call returns `-1`. -/
theorem truncated_receive_mask_times_out_witness :
    (construct simHAL 2 13 (simHw 0 0 0)).1._receiveBitmask = 0 ∧
      (check { (construct simHAL 2 13 (simHw 0 0 0)).1 with _leastCheckedTime := ULONG_MAX }
        10 (simHw (2 ^ 13) 2 1) 1).2.2 = -1 ∧
      (check { (construct simHAL 2 13 (simHw 0 0 0)).1 with _leastCheckedTime := ULONG_MAX }
        10 (simHw (2 ^ 13) 2 1) 1).1._leastCheckedTime = ULONG_MAX :=
  have h := (truncated_receive_mask_times_out simHAL 2 13 (simHw 0 0 0)).2.2 13 (by decide)
    (by decide)
  ⟨h.1, h.2 ULONG_MAX 10 (simHw (2 ^ 13) 2 1) 1 (by decide) (by decide)⟩

end CapacitiveSensorDue
